import Mathlib

/-!
# Verification of the inventory-sync reconciliation engine

A shallow embedding, in Lean 4, of the core logic of `src/logic.py`
(the canonical "v02" variant of the inventory-sync web application), together
with theorems settling the specification's claims about it.

Modelling conventions:
* A pandas cell is `Option PyVal`: `none` models a missing value (`NaN`/`None`);
  `some (.vstr s)` a string cell (all three input tables are read with
  `dtype=str`, so their cells are strings or `NaN`); `some (.vint n)` and
  `some (.vnum x)` model the Python `int` and `float` values that the pipeline
  itself writes into cells.
* Python floats are modelled by `PyFloat`: an exact fraction together with the
  IEEE specials `inf`, `-inf`, `nan` (comparisons with `nan` are all false,
  `nan ≠ x` is always true).  Decimal-literal parsing is exact.
* A `DF` (DataFrame) is a column-name list plus a list of rows, each row an
  association list from column name to cell.  As in pandas, rows of a frame
  are assumed to carry exactly the frame's columns; a label access `row[c]`
  on a missing column raises, which is modelled by `Except` exactly where the
  source has no enclosing `try` (the duplicate check, and `int()` applied to a
  non-finite float in the change-log formatter).
-/

deriving instance DecidableEq for Except

/-- An unreduced fraction with positive denominator: the exact value of a
finite Python float.  Compared by cross-multiplication (`Frac.eqB`), so the
representation need not be normalized; all operations are plain integer
arithmetic, which the kernel evaluates. -/
structure Frac where
  num : ℤ
  den : ℕ
deriving DecidableEq, Repr

def Frac.zero : Frac := ⟨0, 1⟩

def Frac.one : Frac := ⟨1, 1⟩

def Frac.ofInt (n : ℤ) : Frac := ⟨n, 1⟩

def Frac.eqB (a b : Frac) : Bool := decide (a.num * (b.den : ℤ) = b.num * (a.den : ℤ))

def Frac.ltB (a b : Frac) : Bool := decide (a.num * (b.den : ℤ) < b.num * (a.den : ℤ))

def Frac.leB (a b : Frac) : Bool := decide (a.num * (b.den : ℤ) ≤ b.num * (a.den : ℤ))

def Frac.mul (a b : Frac) : Frac := ⟨a.num * b.num, a.den * b.den⟩

def Frac.neg (a : Frac) : Frac := ⟨-a.num, a.den⟩

/-- Multiply by `10 ^ ex` (decimal exponent of a float literal). -/
def Frac.scale10 (a : Frac) : ℤ → Frac
  | .ofNat k => ⟨a.num * ((10 ^ k : ℕ) : ℤ), a.den⟩
  | .negSucc k => ⟨a.num, a.den * 10 ^ (k + 1)⟩

def Frac.floor (a : Frac) : ℤ :=
  if 0 ≤ a.num then ((a.num.toNat / a.den : ℕ) : ℤ)
  else -(((a.num.natAbs + a.den - 1) / a.den : ℕ) : ℤ)

/-- Truncation toward zero (Python `int()` on a finite float). -/
def Frac.trunc (a : Frac) : ℤ :=
  if 0 ≤ a.num then ((a.num.toNat / a.den : ℕ) : ℤ)
  else -((a.num.natAbs / a.den : ℕ) : ℤ)

/-- A Python float: exact rational or an IEEE special value. -/
inductive PyFloat where
  | fin (q : Frac)
  | pinf
  | ninf
  | nan
deriving DecidableEq, Repr

/-- `a > b` on Python floats: comparisons involving `nan` are false. -/
def PyFloat.gtB : PyFloat → PyFloat → Bool
  | .fin a, .fin b => Frac.ltB b a
  | .fin _, .ninf => true
  | .pinf, .fin _ => true
  | .pinf, .ninf => true
  | _, _ => false

/-- `a <= b` on Python floats: comparisons involving `nan` are false. -/
def PyFloat.leB : PyFloat → PyFloat → Bool
  | .fin a, .fin b => Frac.leB a b
  | .fin _, .pinf => true
  | .ninf, .fin _ => true
  | .ninf, .pinf => true
  | .ninf, .ninf => true
  | .pinf, .pinf => true
  | _, _ => false

/-- `a == b` on Python floats: `nan` is equal to nothing, including itself. -/
def PyFloat.eqB : PyFloat → PyFloat → Bool
  | .fin a, .fin b => Frac.eqB a b
  | .pinf, .pinf => true
  | .ninf, .ninf => true
  | _, _ => false

/-- `a != b` on Python floats (`nan != x` is always true). -/
def PyFloat.neB (a b : PyFloat) : Bool := !(PyFloat.eqB a b)

/-- IEEE-style multiplication on `PyFloat` (used by the price computation). -/
def PyFloat.mul : PyFloat → PyFloat → PyFloat
  | .fin a, .fin b => .fin (a.mul b)
  | .nan, _ => .nan
  | _, .nan => .nan
  | .pinf, .pinf => .pinf
  | .pinf, .ninf => .ninf
  | .ninf, .pinf => .ninf
  | .ninf, .ninf => .pinf
  | .pinf, .fin b => if Frac.ltB .zero b then .pinf else if Frac.ltB b .zero then .ninf else .nan
  | .ninf, .fin b => if Frac.ltB .zero b then .ninf else if Frac.ltB b .zero then .pinf else .nan
  | .fin a, .pinf => if Frac.ltB .zero a then .pinf else if Frac.ltB a .zero then .ninf else .nan
  | .fin a, .ninf => if Frac.ltB .zero a then .ninf else if Frac.ltB a .zero then .pinf else .nan

/-- Round a fraction to the nearest integer, ties to even (Python `round`). -/
def roundHalfEven (q : Frac) : ℤ :=
  let f := q.floor
  let rem := q.num - f * (q.den : ℤ)
  if rem * 2 < (q.den : ℤ) then f
  else if (q.den : ℤ) < rem * 2 then f + 1
  else if f % 2 = 0 then f else f + 1

/-- Python `round(x, 2)` on a float (`round(nan, 2) = nan`, `round(inf, 2) = inf`). -/
def round2 : PyFloat → PyFloat
  | .fin q => .fin ⟨roundHalfEven (q.mul ⟨100, 1⟩), 100⟩
  | x => x

/-- Python `int()` on a float; raises (`.error`) on `nan`/`inf` as the source
does inside the change-log f-strings. -/
def pyTrunc : PyFloat → Except String ℤ
  | .fin q => .ok q.trunc
  | _ => .error "ValueError"

/-- A Python value held by a pandas cell. -/
inductive PyVal where
  | vstr (s : String)
  | vint (n : ℤ)
  | vnum (x : PyFloat)
deriving DecidableEq, Repr

/-- A pandas cell; `none` models `NaN`/`None`. -/
abbrev Cell := Option PyVal

/-- A DataFrame row: association list from column name to cell. -/
abbrev Row := List (String × Cell)

/-- Raw label lookup in a row: `none` when the column label is absent. -/
def Row.find? (r : Row) (c : String) : Option Cell := List.lookup c r

/-- `row.get(c, None)`-style access: a missing label behaves like `NaN`
(every caller feeds the result to a cleaner whose missing-value default
coincides with the Python call site's default). -/
def Row.getC (r : Row) (c : String) : Cell := (List.lookup c r).join

/-- Overwrite (or append) one cell of a row, as `df.at[idx, c] = v` does. -/
def Row.set : Row → String → Cell → Row
  | [], c, v => [(c, v)]
  | (k, w) :: rest, c, v =>
    if k = c then (c, v) :: rest else (k, w) :: Row.set rest c v

/-- A DataFrame: ordered column names plus rows. -/
structure DF where
  cols : List String
  rows : List Row
deriving DecidableEq, Repr

/-- `Char.isWhitespace`-based two-sided strip (Python `str.strip()`). -/
def stripChars (l : List Char) : List Char :=
  ((l.dropWhile Char.isWhitespace).reverse.dropWhile Char.isWhitespace).reverse

/-- `[0-9]` (codes 48-57). -/
def isDigitChar (c : Char) : Bool := decide (48 ≤ c.toNat) && decide (c.toNat ≤ 57)

/-- Characters kept by `clean_code`'s regex `[A-Z0-9]` (codes 65-90, 48-57). -/
def isCodeChar (c : Char) : Bool :=
  (decide (65 ≤ c.toNat) && decide (c.toNat ≤ 90)) || isDigitChar c

def digitsToNat (l : List Char) : ℕ :=
  l.foldl (fun n c => n * 10 + (c.toNat - 48)) 0

/-- Parse the mantissa of a float literal: `digits`, `digits.digits`,
`digits.`, or `.digits` — anything else fails (Python `float()` grammar). -/
def parseMantissa (l : List Char) : Option Frac :=
  let intPart := l.takeWhile isDigitChar
  let rest := l.dropWhile isDigitChar
  match rest with
  | [] => if intPart = [] then none else some ⟨(digitsToNat intPart : ℤ), 1⟩
  | '.' :: fracRest =>
    let fracPart := fracRest.takeWhile isDigitChar
    let rest2 := fracRest.dropWhile isDigitChar
    if rest2 = [] ∧ (intPart ≠ [] ∨ fracPart ≠ []) then
      some ⟨(digitsToNat (intPart ++ fracPart) : ℤ), 10 ^ fracPart.length⟩
    else none
  | _ => none

/-- Split a char list at the first `e`/`E` (exponent marker). -/
def splitAtExp : List Char → List Char × Option (List Char)
  | [] => ([], none)
  | c :: rest =>
    if c = 'e' ∨ c = 'E' then ([], some rest)
    else
      let p := splitAtExp rest
      (c :: p.1, p.2)

/-- Strip one optional leading sign; returns (isNegative, rest). -/
def parseSign : List Char → Bool × List Char
  | '+' :: r => (false, r)
  | '-' :: r => (true, r)
  | l => (false, l)

def parseExp (l : List Char) : Option ℤ :=
  let p := parseSign l
  if p.2 ≠ [] ∧ p.2.all isDigitChar then
    some (if p.1 then -(digitsToNat p.2 : ℤ) else (digitsToNat p.2 : ℤ))
  else none

/-- Python `float(s)`: strip whitespace, optional sign, then `inf`/`infinity`/
`nan` (case-insensitive) or a decimal literal with optional exponent.
`none` models the `ValueError` raise. -/
def pyFloatOfString (s : String) : Option PyFloat :=
  let l := stripChars s.toList
  let p := parseSign l
  let rl := p.2.map Char.toLower
  if rl = "inf".toList ∨ rl = "infinity".toList then
    some (if p.1 then .ninf else .pinf)
  else if rl = "nan".toList then some .nan
  else
    let me := splitAtExp p.2
    match parseMantissa me.1 with
    | none => none
    | some m =>
      match me.2 with
      | none => some (.fin (if p.1 then m.neg else m))
      | some el =>
        match parseExp el with
        | none => none
        | some ex =>
          some (.fin ((if p.1 then m.neg else m).scale10 ex))

def digitChar (d : ℕ) : Char := Char.ofNat (48 + d)

/-- Fractional decimal digits of `num/den` by long division (capped fuel);
used only to render floats back to text, as Python `str()` does. -/
def fracDigits : ℕ → ℕ → ℕ → List Char
  | 0, _, _ => []
  | _ + 1, 0, _ => []
  | fuel + 1, num, den => digitChar (num * 10 / den) :: fracDigits fuel (num * 10 % den) den

/-- Python `str()` of a float: always shows a decimal point (`"2.0"`). -/
def pyFloatRepr : PyFloat → String
  | .pinf => "inf"
  | .ninf => "-inf"
  | .nan => "nan"
  | .fin q =>
    let sign := if q.num < 0 then "-" else ""
    let n := q.num.natAbs
    let d := q.den
    let frac := fracDigits 32 (n % d) d
    sign ++ toString (n / d) ++ "." ++ (if frac = [] then "0" else ⟨frac⟩)

/-- Python `str()` of a cell value (`str(nan) = "nan"`). -/
def pyStrOfCell : Cell → String
  | none => "nan"
  | some (.vstr s) => s
  | some (.vint n) => toString n
  | some (.vnum x) => pyFloatRepr x

/-- `f"{x:.2f}"`: fixed two-decimal rendering, ties to even. -/
def fmt2 : PyFloat → String
  | .pinf => "inf"
  | .ninf => "-inf"
  | .nan => "nan"
  | .fin q =>
    let m := roundHalfEven (q.mul ⟨100, 1⟩)
    let sign := if m < 0 then "-" else ""
    let a := m.natAbs
    sign ++ toString (a / 100) ++ "." ++ ⟨[digitChar (a / 10 % 10), digitChar (a % 10)]⟩

/-- `' | '.join`-style concatenation. -/
def joinSep (sep : String) : List String → String
  | [] => ""
  | [x] => x
  | x :: y :: rest => x ++ sep ++ joinSep sep (y :: rest)

/-- Substring test: Python `pat in s`. -/
def strContains (s pat : String) : Bool := decide (pat.toList <:+: s.toList)

/-- Python `s.replace(a, b)` for one-char patterns. -/
def replaceChar (s : String) (a b : Char) : String :=
  ⟨s.toList.map (fun c => if c = a then b else c)⟩

/-- Python `s.replace(a, '')` for a one-char pattern. -/
def dropChar (s : String) (a : Char) : String :=
  ⟨s.toList.filter (fun c => c ≠ a)⟩

-- ==========================================
-- Column-name configuration (src/logic.py, lines 30-48)
-- ==========================================

def COL_SHOPIFY_SKU : String := "Variant SKU"
def COL_SHOPIFY_QTY : String := "Variant Inventory Qty"
def COL_SHOPIFY_COST : String := "Variant Cost"
def COL_SHOPIFY_PRICE : String := "Variant Price"
def COL_SHOPIFY_TAGS : String := "Tags"
def COL_COSTO_BBR : String := "CostoBBRModels"
def COL_NET_PRICE : String := "Net Price"
def COL_MCWS_OUR_CODE : String := "Our Code"
def COL_MCWS_CODE : String := "Code"
def COL_MCWS_TRADEMARK : String := "Trademark"
def COL_BBR_SKU : String := "DescrizioneVariante"
def COL_BBR_QTY : String := "QtaResidua"
def COL_CHANGE_LOG : String := "Change Log"

/-- The configured valid-trademark list (src/logic.py, lines 51-60). -/
def VALID_TRADEMARKS : List String :=
  ["ACME-MODELS", "ALERTE", "AUTOART", "AVENUE43", "BBR-MODELS", "BURAGO",
   "CMC", "CMR", "ELIGOR", "ESVAL MODEL", "GP-REPLICAS", "GT-SPIRIT",
   "IXO-MODELS", "KK-SCALE", "KYOSHO", "LCD-MODEL", "LOOKSMART", "MAXIMA",
   "MINI HELMET", "MINICHAMPS", "MITICA", "MITICA-DIECAST", "MITICA-R",
   "MOTORHELIX", "MR-MODELS", "NOREV", "NZG", "OTTO-MOBILE", "RIO-MODELS",
   "SCHUCO", "SOLIDO", "SPARK-MODEL", "STAMP-MODELS", "TECNOMODEL",
   "TOPMARQUES", "TROFEU", "TRUESCALE", "WERK83", "DM-MODELS",
   "UNIVERSAL HOBBIES", "LS-COLLECTIBLES", "MCG", "SUN-STAR"]

/-- `BBR_MARKUP = 1.75`. -/
def BBR_MARKUP : Frac := ⟨7, 4⟩

-- ==========================================
-- Normalizer (src/logic.py, lines 84-108)
-- ==========================================

/-- The string core of `clean_code`: strip, uppercase, keep `[A-Z0-9]`,
strip leading zeros. -/
def cleanCodeList (l : List Char) : List Char :=
  (((stripChars l).map Char.toUpper).filter isCodeChar).dropWhile (fun c => c = '0')

def cleanCodeStr (s : String) : String := ⟨cleanCodeList s.toList⟩

/-- `clean_code` over a cell (`pd.isna` → `""`, `== ''` → `""`, else via
`str()`; the char-wise `Char.toUpper` idealizes Python's `str.upper`). -/
def clean_code (c : Cell) : String :=
  match c with
  | none => ""
  | some (.vnum .nan) => ""
  | some (.vstr s) => if s = "" then "" else cleanCodeStr s
  | some v => cleanCodeStr (pyStrOfCell (some v))

/-- `clean_trademark`: strip + uppercase; empty/missing → `""`. -/
def clean_trademark (c : Cell) : String :=
  match c with
  | none => ""
  | some (.vnum .nan) => ""
  | some (.vstr s) => if s = "" then "" else ⟨(stripChars s.toList).map Char.toUpper⟩
  | some v => ⟨(stripChars (pyStrOfCell (some v)).toList).map Char.toUpper⟩

/-- `clean_numeric` with the (only-used) default `0.0`: missing → `0`;
else replace `,`→`.`, drop spaces, `float()`; parse failure → `0`.
For cells already holding numbers, `float(str(x))` round-trips to `x`
(a non-`nan` value; `pd.isna(nan)` routes `nan` cells to the default). -/
def clean_numeric (c : Cell) : PyFloat :=
  match c with
  | none => .fin Frac.zero
  | some (.vnum .nan) => .fin Frac.zero
  | some (.vnum x) => x
  | some (.vint n) => .fin (Frac.ofInt n)
  | some (.vstr s) =>
    if s = "" then .fin Frac.zero
    else
      match pyFloatOfString (dropChar (replaceChar s ',' '.') ' ') with
      | some x => x
      | none => .fin Frac.zero

-- ==========================================
-- Brand extraction (src/logic.py, lines 180-209)
-- ==========================================

/-- A char matched by the regex class `[a-z0-9\-]` (codes 97-122, 48-57, 45). -/
def isBrandChar (c : Char) : Bool :=
  (decide (97 ≤ c.toNat) && decide (c.toNat ≤ 122)) || isDigitChar c || decide (c = '-')

/-- `re.search(r'brand_([a-z0-9\-]+)', tags_lower)`: at each position try the
literal `brand_` followed by a non-empty maximal `[a-z0-9\-]` run. -/
def findBrandMatch : List Char → Option (List Char)
  | [] => none
  | l@(_ :: rest) =>
    if List.isPrefixOf "brand_".toList l then
      let run := (l.drop 6).takeWhile isBrandChar
      if run ≠ [] then some run else findBrandMatch rest
    else findBrandMatch rest

/-- `extract_brand_from_tags`: the `brand_X` marker (uppercased, `-`→space),
else the first valid trademark whose lowercased, `-`→space form occurs in
the tags, else `""`. -/
def extract_brand_from_tags (c : Cell) : String :=
  match c with
  | none => ""
  | some (.vnum .nan) => ""
  | some v =>
    let s := pyStrOfCell (some v)
    if s = "" then ""
    else
      let tagsLower := s.toList.map Char.toLower
      match findBrandMatch tagsLower with
      | some run => ⟨(run.map Char.toUpper).map (fun c => if c = '-' then ' ' else c)⟩
      | none =>
        match VALID_TRADEMARKS.find? (fun t =>
            decide (((t.toList.map Char.toLower).map
              (fun c => if c = '-' then ' ' else c)) <:+: tagsLower)) with
        | some t => t
        | none => ""

-- ==========================================
-- Source attribution (src/logic.py, lines 247-279)
-- ==========================================

inductive Source where
  | BBR
  | MCWS
  | UNKNOWN
deriving DecidableEq, Repr

/-- `identify_product_source`: positive `CostoBBRModels` → BBR; else positive
`Net Price` → MCWS; else `Variant Cost <= 0` → UNKNOWN; else BBR when the
extracted brand contains `BBR`, otherwise MCWS (the source's default
fallback). -/
def identify_product_source (r : Row) : Source :=
  if PyFloat.gtB (clean_numeric (Row.getC r COL_COSTO_BBR)) (.fin Frac.zero) then .BBR
  else if PyFloat.gtB (clean_numeric (Row.getC r COL_NET_PRICE)) (.fin Frac.zero) then .MCWS
  else if PyFloat.leB (clean_numeric (Row.getC r COL_SHOPIFY_COST)) (.fin Frac.zero) then .UNKNOWN
  else
    let brand := extract_brand_from_tags (Row.getC r COL_SHOPIFY_TAGS)
    if strContains brand "BBR" ∨ strContains brand "BBR-MODELS" then .BBR
    else .MCWS

-- ==========================================
-- Markup table loader (src/logic.py, lines 147-177)
-- ==========================================

/-- The process-wide `MCWS_MARKUP_TABLE`, made explicit: an insertion-ordered
mapping from cleaned trademark to markup. -/
abbrev MarkupTable := List (String × PyFloat)

/-- Python-dict assignment: overwrite in place or append. -/
def dictInsertF : MarkupTable → String → PyFloat → MarkupTable
  | [], k, v => [(k, v)]
  | (k', v') :: rest, k, v =>
    if k' = k then (k, v) :: rest else (k', v') :: dictInsertF rest k v

/-- The markup side file: rows of (first column, second column) cells. -/
abbrev MarkupFile := List (Cell × Cell)

/-- Python truthiness of a cell (`NaN` is a truthy float!). -/
def cellTruthy : Cell → Bool
  | none => true
  | some (.vstr s) => s ≠ ""
  | some (.vint n) => n ≠ 0
  | some (.vnum x) => PyFloat.neB x (.fin Frac.zero)

/-- `load_markup_table`: `file = none` models a read failure — the exception
is caught, `{}` is returned and the global table is left untouched; on
success every row with truthy trademark and markup cells is inserted into
the global.  Returns (function result, new global table). -/
def load_markup_table (file : Option MarkupFile) (globalTable : MarkupTable) :
    MarkupTable × MarkupTable :=
  match file with
  | none => ([], globalTable)
  | some rows =>
    let g := rows.foldl (fun t p =>
      let tm := clean_trademark p.1
      if tm ≠ "" ∧ cellTruthy p.2 then dictInsertF t tm (clean_numeric p.2) else t)
      globalTable
    (g, g)

-- ==========================================
-- Duplicate / trademark validator (src/logic.py, lines 111-144)
-- ==========================================

structure DupEntry where
  code : String
  rowIndex : ℕ
  trademark : String
  isValidTrademark : Bool
deriving DecidableEq, Repr

/-- Append an index to its code's group, creating the group at the end on
first sight (`defaultdict(list)` keeps first-occurrence key order). -/
def insertGroup : List (String × List ℕ) → String → ℕ → List (String × List ℕ)
  | [], c, i => [(c, [i])]
  | (k, is) :: rest, c, i =>
    if k = c then (k, is ++ [i]) :: rest else (k, is) :: insertGroup rest c i

/-- Group row positions by cleaned code, skipping empty codes. -/
def codeGroups (rows : List Row) (codeCol : String) : List (String × List ℕ) :=
  rows.enum.foldl (fun gs p =>
    let c := clean_code (Row.getC p.2 codeCol)
    if c = "" then gs else insertGroup gs c p.1) []

/-- One report entry for occurrence `i` (0-based position) of code `c`. -/
def dupEntryOf (rows : List Row) (tmCol : String) (c : String) (i : ℕ) : DupEntry :=
  let tm := clean_trademark (Row.getC (rows.getD i []) tmCol)
  ⟨c, i + 1, tm, decide (tm ∈ VALID_TRADEMARKS)⟩

/-- `find_duplicate_codes_with_trademark_check`.  The loop reads
`row[code_col]`, which raises `KeyError` (uncaught) when the column is
absent and at least one row exists; rows carry exactly the frame's columns. -/
def find_duplicate_codes_with_trademark_check (df : DF) (codeCol tmCol : String) :
    Except String (List ℕ × List DupEntry) :=
  if df.rows ≠ [] ∧ codeCol ∉ df.cols then .error "KeyError"
  else
    let dups := (codeGroups df.rows codeCol).filter (fun g => 1 < g.2.length)
    .ok (dups.foldl (fun acc g =>
      g.2.foldl (fun acc2 i =>
        let e := dupEntryOf df.rows tmCol g.1 i
        (if e.isValidTrademark then acc2.1 ++ [i] else acc2.1, acc2.2 ++ [e])) acc)
      ([], []))

-- ==========================================
-- Cost/price engine (src/logic.py, lines 423-548)
-- ==========================================

structure CPStats where
  cost_updates_bbr : ℕ
  cost_updates_mcws : ℕ
  price_updates_bbr : ℕ
  price_updates_mcws : ℕ
  total_bbr : ℕ
  total_mcws : ℕ
  total_unknown : ℕ
  missing_markup_brands : List String
deriving DecidableEq, Repr

def CPStats.init : CPStats := ⟨0, 0, 0, 0, 0, 0, 0, []⟩

/-- `df[c] = None` when the column is missing (per-row under the uniform
column assumption). -/
def ensureCol (r : Row) (c : String) : Row :=
  if (Row.find? r c).isSome then r else r ++ [(c, none)]

def ensureCPCols (r : Row) : Row := ensureCol (ensureCol r COL_COSTO_BBR) COL_NET_PRICE

/-- Python `set.add` with the source's membership guard. -/
def insertNew (l : List String) (x : String) : List String :=
  if x ∈ l then l else l ++ [x]

/-- One iteration of the cost/price loop: the row's new cells together with
the update the iteration applies to the running statistics (the row part
never reads the statistics, so the two are returned side by side).
Mirrors lines 475-539 of src/logic.py. -/
def cpRow (markup : MarkupTable) (r : Row) : Row × (CPStats → CPStats) :=
  match identify_product_source r with
  | .UNKNOWN => (r, fun st => { st with total_unknown := st.total_unknown + 1 })
  | .BBR =>
    let current_cost := clean_numeric (Row.getC r COL_SHOPIFY_COST)
    let new_price := clean_numeric (Row.getC r COL_SHOPIFY_PRICE)
    let costo_bbr := clean_numeric (Row.getC r COL_COSTO_BBR)
    let upd := PyFloat.gtB costo_bbr (.fin Frac.zero) ∧ PyFloat.neB current_cost costo_bbr
    let new_cost := if upd then costo_bbr else current_cost
    let r1 := if upd then Row.set r COL_SHOPIFY_COST (some (.vnum costo_bbr)) else r
    let expected := round2 (PyFloat.mul new_cost (.fin BBR_MARKUP))
    let pupd := PyFloat.neB new_price expected
    (if pupd then Row.set r1 COL_SHOPIFY_PRICE (some (.vnum expected)) else r1,
     fun st =>
       let st := { st with total_bbr := st.total_bbr + 1 }
       let st := if upd then { st with cost_updates_bbr := st.cost_updates_bbr + 1 } else st
       if pupd then { st with price_updates_bbr := st.price_updates_bbr + 1 } else st)
  | .MCWS =>
    let current_cost := clean_numeric (Row.getC r COL_SHOPIFY_COST)
    let new_price := clean_numeric (Row.getC r COL_SHOPIFY_PRICE)
    let net_price := clean_numeric (Row.getC r COL_NET_PRICE)
    let upd := PyFloat.gtB net_price (.fin Frac.zero) ∧ PyFloat.neB current_cost net_price
    let new_cost := if upd then net_price else current_cost
    let r1 := if upd then Row.set r COL_SHOPIFY_COST (some (.vnum net_price)) else r
    let brand := extract_brand_from_tags (Row.getC r COL_SHOPIFY_TAGS)
    let brandLookup := replaceChar ⟨brand.toList.map Char.toUpper⟩ ' ' '-'
    match List.lookup brandLookup markup with
    | some mk =>
      let expected := round2 (PyFloat.mul new_cost mk)
      let pupd := PyFloat.neB new_price expected
      (if pupd then Row.set r1 COL_SHOPIFY_PRICE (some (.vnum expected)) else r1,
       fun st =>
         let st := { st with total_mcws := st.total_mcws + 1 }
         let st := if upd then { st with cost_updates_mcws := st.cost_updates_mcws + 1 } else st
         if pupd then { st with price_updates_mcws := st.price_updates_mcws + 1 } else st)
    | none =>
      (r1,
       fun st =>
         let st := { st with total_mcws := st.total_mcws + 1 }
         let st := if upd then { st with cost_updates_mcws := st.cost_updates_mcws + 1 } else st
         if brand ≠ "" then
           { st with missing_markup_brands := insertNew st.missing_markup_brands brand }
         else st)

structure CPResult where
  df : DF
  stats : CPStats
  globalTable : MarkupTable
  logs : List String
deriving DecidableEq, Repr

/-- `process_costs_and_prices`: empty frame short-circuits; otherwise ensure
the two supplier cost columns, reload the markup table from the default
side file if the global one is empty, and run the per-row loop. -/
def process_costs_and_prices (defaultFile : Option MarkupFile) (globalTable : MarkupTable)
    (df : DF) (logs : List String) : CPResult :=
  if df.rows = [] then
    ⟨df, CPStats.init, globalTable,
     logs ++ ["   [COSTI/PREZZI] DataFrame vuoto, nessuna elaborazione"]⟩
  else
    let cols1 := (if COL_COSTO_BBR ∈ df.cols then df.cols else df.cols ++ [COL_COSTO_BBR])
    let cols2 := (if COL_NET_PRICE ∈ cols1 then cols1 else cols1 ++ [COL_NET_PRICE])
    let rows1 := df.rows.map ensureCPCols
    let logs := logs ++ ["   [COSTI/PREZZI] Inizio elaborazione costi e prezzi..."]
    let reload := globalTable = []
    let table := if reload then (load_markup_table defaultFile globalTable).2 else globalTable
    let logs := if reload then
        logs ++ ["   [COSTI/PREZZI] Tabella markup caricata: " ++ toString table.length ++ " brand"]
      else logs
    let res := rows1.foldl (fun acc r =>
        let p := cpRow table r
        (acc.1 ++ [p.1], p.2 acc.2)) (([] : List Row), CPStats.init)
    let st := res.2
    let logs := logs ++
      ["   [COSTI/PREZZI] Prodotti BBR: " ++ toString st.total_bbr ++
         " (costi aggiornati: " ++ toString st.cost_updates_bbr ++
         ", prezzi aggiornati: " ++ toString st.price_updates_bbr ++ ")",
       "   [COSTI/PREZZI] Prodotti MCWS: " ++ toString st.total_mcws ++
         " (costi aggiornati: " ++ toString st.cost_updates_mcws ++
         ", prezzi aggiornati: " ++ toString st.price_updates_mcws ++ ")"]
    let logs := if st.missing_markup_brands ≠ [] then
        logs ++ ["   [COSTI/PREZZI] Brand senza markup configurato: " ++
          joinSep ", " (st.missing_markup_brands.mergeSort (fun a b => decide (a ≤ b)))]
      else logs
    ⟨⟨cols2, res.1⟩, st, table, logs⟩

-- ==========================================
-- Inventory reconciler (src/logic.py, lines 685-727)
-- ==========================================

structure InvStats where
  total : ℕ
  updates_1 : ℕ
  updates_0 : ℕ
deriving DecidableEq, Repr

structure RecAcc where
  stats : InvStats
  processed : List String
  rowsOut : List Row
deriving DecidableEq, Repr

/-- `float(row.get('Variant Inventory Qty', 0))`: missing column → `0`,
`NaN` cell → `nan`, string cell parsed by a plain `float()` — the
`ValueError` is caught (`except`) and yields `0`.  Note: no comma-to-dot
normalization here, unlike `clean_numeric`. -/
def currentVal (row : Row) : PyFloat :=
  match Row.find? row COL_SHOPIFY_QTY with
  | none => .fin Frac.zero
  | some none => .nan
  | some (some (.vstr s)) =>
    match pyFloatOfString s with
    | some x => x
    | none => .fin Frac.zero
  | some (some (.vint n)) => .fin (Frac.ofInt n)
  | some (some (.vnum x)) => x

/-- One iteration of the Shopify comparison loop: count the row; skip empty
or already-processed SKUs; otherwise decide the 0↔1 transition and carry
the (possibly updated) row into the working output. -/
def recStep (avail : List String) (a : RecAcc) (row : Row) : RecAcc :=
  let a1 : RecAcc := { a with stats := { a.stats with total := a.stats.total + 1 } }
  let sku := clean_code (Row.getC row COL_SHOPIFY_SKU)
  if sku = "" then a1
  else if sku ∈ a1.processed then a1
  else
    let a2 := { a1 with processed := a1.processed ++ [sku] }
    let logicOne := PyFloat.gtB (currentVal row) (.fin Frac.zero)
    if sku ∈ avail ∧ logicOne = false then
      { a2 with
        stats := { a2.stats with updates_1 := a2.stats.updates_1 + 1 },
        rowsOut := a2.rowsOut ++ [Row.set row COL_SHOPIFY_QTY (some (.vint 1))] }
    else if sku ∉ avail ∧ logicOne = true then
      { a2 with
        stats := { a2.stats with updates_0 := a2.stats.updates_0 + 1 },
        rowsOut := a2.rowsOut ++ [Row.set row COL_SHOPIFY_QTY (some (.vint 0))] }
    else { a2 with rowsOut := a2.rowsOut ++ [row] }

/-- The reconciler proper: the Shopify comparison loop over all target rows. -/
def reconcile (avail : List String) (rows : List Row) : RecAcc :=
  rows.foldl (recStep avail) ⟨⟨0, 0, 0⟩, [], []⟩

-- ==========================================
-- Master availability builder (src/logic.py, lines 597-674)
-- ==========================================

/-- Collect cleaned codes of one MCWS column into the availability set,
applying the trademark filter when the trademark column exists. -/
def buildAvailMcwsCol (mcws : DF) (col : String) (hasTm : Bool)
    (acc : List String) : List String :=
  if col ∈ mcws.cols then
    mcws.rows.foldl (fun s row =>
      let c := clean_code (Row.getC row col)
      if c = "" then s
      else if hasTm ∧ clean_trademark (Row.getC row COL_MCWS_TRADEMARK) ∉ VALID_TRADEMARKS then s
      else insertNew s c) acc
  else acc

/-- One BBR row: the quantity gate (`try: float(str(qty).replace(',', '.'))`,
parse failure falls open) and then the code insertion. -/
def bbrStep (hasQty : Bool) (s : List String) (row : Row) : List String :=
  let isAvailable :=
    if hasQty then
      match pyFloatOfString (replaceChar (pyStrOfCell (Row.getC row COL_BBR_QTY)) ',' '.') with
      | some q => !(PyFloat.leB q (.fin Frac.zero))
      | none => true
    else true
  if isAvailable then
    let c := clean_code (Row.getC row COL_BBR_SKU)
    if c ≠ "" then insertNew s c else s
  else s

def buildAvailBbr (bbr : DF) (acc : List String) : List String :=
  if COL_BBR_SKU ∈ bbr.cols then
    bbr.rows.foldl (bbrStep (COL_BBR_QTY ∈ bbr.cols)) acc
  else acc

-- ==========================================
-- Change log and final filter (src/logic.py, lines 282-420)
-- ==========================================

/-- Python-dict assignment for the SKU → original-row map (last wins). -/
def dictInsertR : List (String × Row) → String → Row → List (String × Row)
  | [], k, v => [(k, v)]
  | (k', v') :: rest, k, v =>
    if k' = k then (k, v) :: rest else (k', v') :: dictInsertR rest k v

/-- `original_by_sku`: cleaned SKU → original Shopify row. -/
def originalBySku (orig : DF) : List (String × Row) :=
  orig.rows.foldl (fun m row =>
    let sku := clean_code (Row.getC row COL_SHOPIFY_SKU)
    if sku ≠ "" then dictInsertR m sku row else m) []

/-- The inventory segment of the change log; `int()` on a non-finite float
raises, which propagates out of the run. -/
def qtyChanges (origRow row : Row) : Except String (List String) :=
  let oq := clean_numeric (Row.getC origRow COL_SHOPIFY_QTY)
  let nq := clean_numeric (Row.getC row COL_SHOPIFY_QTY)
  if PyFloat.neB oq nq then
    match pyTrunc oq, pyTrunc nq with
    | .ok a, .ok b =>
      .ok [if PyFloat.eqB nq (.fin Frac.one) then
             "QTY: " ++ toString a ++ "→" ++ toString b ++ " (RIATTIVATO)"
           else if PyFloat.eqB nq (.fin Frac.zero) then
             "QTY: " ++ toString a ++ "→" ++ toString b ++ " (DISATTIVATO)"
           else "QTY: " ++ toString a ++ "→" ++ toString b]
    | _, _ => .error "ValueError"
  else .ok []

/-- The cost segment of the change log (reported per the same source
attribution; `:.2f` formatting never raises). -/
def costChanges (origRow row : Row) : List String :=
  let oc := clean_numeric (Row.getC origRow COL_SHOPIFY_COST)
  let nc := clean_numeric (Row.getC row COL_SHOPIFY_COST)
  match identify_product_source row with
  | .BBR =>
    let costo_bbr := clean_numeric (Row.getC row COL_COSTO_BBR)
    if PyFloat.gtB costo_bbr (.fin Frac.zero) ∧ PyFloat.neB nc oc then
      ["COST BBR: " ++ fmt2 oc ++ "→" ++ fmt2 nc ++ " (da CostoBBRModels=" ++ fmt2 costo_bbr ++ ")"]
    else []
  | .MCWS =>
    let net_price := clean_numeric (Row.getC row COL_NET_PRICE)
    if PyFloat.gtB net_price (.fin Frac.zero) ∧ PyFloat.neB nc oc then
      ["COST MCWS: " ++ fmt2 oc ++ "→" ++ fmt2 nc ++ " (da NetPrice=" ++ fmt2 net_price ++ ")"]
    else []
  | .UNKNOWN => []

/-- The price segment of the change log (recorded for the log text only;
never part of the keep/drop decision). -/
def priceChangesOf (markup : MarkupTable) (origRow row : Row) : List String :=
  let nc := clean_numeric (Row.getC row COL_SHOPIFY_COST)
  let op := clean_numeric (Row.getC origRow COL_SHOPIFY_PRICE)
  let np := clean_numeric (Row.getC row COL_SHOPIFY_PRICE)
  match identify_product_source row with
  | .BBR =>
    let expected := if PyFloat.gtB nc (.fin Frac.zero) then round2 (PyFloat.mul nc (.fin BBR_MARKUP))
                    else .fin Frac.zero
    if PyFloat.neB op expected ∧ PyFloat.eqB np expected then
      ["PRICE BBR: " ++ fmt2 op ++ "→" ++ fmt2 np ++ " (markup=" ++ pyFloatRepr (.fin BBR_MARKUP) ++ ")"]
    else []
  | .MCWS =>
    let brand := extract_brand_from_tags (Row.getC row COL_SHOPIFY_TAGS)
    let brandLookup := replaceChar ⟨brand.toList.map Char.toUpper⟩ ' ' '-'
    match List.lookup brandLookup markup with
    | some mk =>
      let expected := if PyFloat.gtB nc (.fin Frac.zero) then round2 (PyFloat.mul nc mk) else .fin Frac.zero
      if PyFloat.neB op expected ∧ PyFloat.eqB np expected then
        ["PRICE MCWS: " ++ fmt2 op ++ "→" ++ fmt2 np ++ " (markup=" ++ pyFloatRepr mk ++
           ", brand=" ++ brand ++ ")"]
      else []
    | none => []
  | .UNKNOWN => []

/-- One row of the change-log loop: the row with its `Change Log` cell set,
and whether it counts as changed (`NUOVO PRODOTTO`, or a qty/cost delta). -/
def logCompute (markup : MarkupTable) (m : List (String × Row)) (row : Row) :
    Except String (Row × Bool) :=
  let sku := clean_code (Row.getC row COL_SHOPIFY_SKU)
  match List.lookup sku m with
  | none => .ok (Row.set row COL_CHANGE_LOG (some (.vstr "NUOVO PRODOTTO")), true)
  | some origRow =>
    match qtyChanges origRow row with
    | .error e => .error e
    | .ok qc =>
      let changes := qc ++ costChanges origRow row
      let pchanges := priceChangesOf markup origRow row
      let allChanges := changes ++ pchanges
      let row1 := if allChanges ≠ [] then
          Row.set row COL_CHANGE_LOG (some (.vstr (joinSep " | " allChanges)))
        else row
      if changes ≠ [] then .ok (row1, true)
      else .ok (Row.set row1 COL_CHANGE_LOG (some (.vstr "")), false)

/-- The change-log loop over the rows, stopping at the first raise. -/
def mapLog (markup : MarkupTable) (m : List (String × Row)) :
    List Row → Except String (List (Row × Bool))
  | [] => .ok []
  | r :: t =>
    match logCompute markup m r with
    | .error e => .error e
    | .ok p =>
      match mapLog markup m t with
      | .error e => .error e
      | .ok ps => .ok (p :: ps)

/-- `add_change_log_column` with the final qty/cost filter
(`ENABLE_CHANGE_LOG` is `True` in the source configuration). -/
def add_change_log_column (df : DF) (orig : DF) (markup : MarkupTable)
    (logs : List String) : Except String (DF × List String) :=
  if df.rows = [] then
    .ok (df, logs ++ ["   [CHANGE LOG] DataFrame vuoto, nessuna elaborazione"])
  else
    let logs := logs ++ ["   [CHANGE LOG] Inizio analisi variazioni..."]
    let m := originalBySku orig
    match mapLog markup m df.rows with
    | .error e => .error e
    | .ok processed =>
      let changeCount := (processed.filter (fun p => p.2)).length
      let cols1 := if COL_CHANGE_LOG ∈ df.cols then df.cols else df.cols ++ [COL_CHANGE_LOG]
      let filtered := (processed.map Prod.fst).filter
        (fun r => Row.getC r COL_CHANGE_LOG ≠ some (.vstr ""))
      let logs := logs ++
        ["   [CHANGE LOG] Trovate " ++ toString changeCount ++ " righe con variazioni (QTY o COST)",
         "   [CHANGE LOG] Output filtrato: " ++ toString filtered.length ++ " righe con modifiche"]
      .ok (⟨cols1, filtered⟩, logs)

-- ==========================================
-- Full pipeline (src/logic.py, lines 551-767)
-- ==========================================

def eqLine : String := ⟨List.replicate 50 '='⟩

structure V02Result where
  output : DF
  invStats : InvStats
  cpStats : Option CPStats
  dupReport : List DupEntry
  logs : List String
  markupGlobal : MarkupTable
deriving DecidableEq, Repr

/-- The final-summary log block (src/logic.py, lines 749-765). -/
def mkSummary (inv : InvStats) (cp : Option CPStats) : List String :=
  [eqLine, "RIEPILOGO ELABORAZIONE", eqLine,
   "SKU Shopify totali: " ++ toString inv.total,
   "Aggiornamenti inventory (0→1): " ++ toString inv.updates_1,
   "Aggiornamenti inventory (1→0): " ++ toString inv.updates_0] ++
  (match cp with
   | none => []
   | some st =>
     ["Prodotti BBR processati: " ++ toString st.total_bbr,
      "  - Costi BBR aggiornati: " ++ toString st.cost_updates_bbr,
      "  - Prezzi BBR aggiornati: " ++ toString st.price_updates_bbr,
      "Prodotti MCWS processati: " ++ toString st.total_mcws,
      "  - Costi MCWS aggiornati: " ++ toString st.cost_updates_mcws,
      "  - Prezzi MCWS aggiornati: " ++ toString st.price_updates_mcws] ++
     (if st.missing_markup_brands ≠ [] then
        ["Brand senza markup: " ++ toString st.missing_markup_brands.length]
      else []))

/-- The duplicate-check stage of the run: performed only when the trademark
column exists (src/logic.py, lines 607-613). -/
def dupCheckStage (mcws : DF) : Except String (List ℕ × List DupEntry) :=
  if COL_MCWS_TRADEMARK ∈ mcws.cols then
    find_duplicate_codes_with_trademark_check mcws COL_MCWS_OUR_CODE COL_MCWS_TRADEMARK
  else .ok ([], [])

/-- The log lines the run accumulates before the SKU-column check
(src/logic.py, lines 580-679). -/
def v02PrefixLogs (mcws : DF) (g1 : MarkupTable) (dupReport : List DupEntry)
    (s2 avail : List String) : List String :=
  [eqLine, "INVENTORY SYNC V02 - GESTIONE COMPLETA", eqLine,
   "Trademark validi: " ++ toString VALID_TRADEMARKS.length ++ " brand",
   "0. Caricamento tabella markup MCWS...",
   "   Caricati " ++ toString g1.length ++ " brand dalla tabella markup",
   "1. Processing MCWS Stocklist..."] ++
  (if COL_MCWS_TRADEMARK ∈ mcws.cols then
     ["   Colonna Trademark trovata, applicazione filtro brand validi"]
   else ["   ATTENZIONE: Colonna Trademark non trovata in MCWS",
         "   Verranno elaborati TUTTI i prodotti senza filtro Trademark"]) ++
  (if COL_MCWS_TRADEMARK ∈ mcws.cols then
     ["   Verifica duplicati...",
      "   Trovati " ++ toString dupReport.length ++ " casi di duplicati"]
   else []) ++
  ["   Elaborazione codici da MCWS...",
   "   Caricati " ++ toString s2.length ++ " codici unici da MCWS",
   "2. Processing BBR Export...",
   "   Caricati " ++ toString (avail.length - s2.length) ++ " codici unici da BBR",
   "   TOTALE MASTER SKU LIST: " ++ toString avail.length ++ " item unici",
   "3. Comparing with Shopify Products (Inventory)..."]

/-- `process_inventory_v02`.  `markupFile` is the content of the side file
passed to the run's explicit markup load, `defaultMarkupFile` the content
of the default-path file read by the lazy reload inside the cost engine;
`none` models a failing read.  `g0` is the process-wide markup table at
run start. -/
def process_inventory_v02 (shopify mcws bbr : DF)
    (markupFile defaultMarkupFile : Option MarkupFile) (g0 : MarkupTable) :
    Except String V02Result :=
  let g1 := (load_markup_table markupFile g0).2
  match dupCheckStage mcws with
  | .error e => .error e
  | .ok vd =>
    let dupReport := vd.2
    let hasTm := COL_MCWS_TRADEMARK ∈ mcws.cols
    let s1 := buildAvailMcwsCol mcws COL_MCWS_OUR_CODE hasTm []
    let s2 := buildAvailMcwsCol mcws COL_MCWS_CODE hasTm s1
    let avail := buildAvailBbr bbr s2
    let logs := v02PrefixLogs mcws g1 dupReport s2 avail
    if COL_SHOPIFY_SKU ∉ shopify.cols then
      .ok ⟨⟨[], []⟩, ⟨0, 0, 0⟩, none, dupReport,
        logs ++ ["ERRORE: Colonna \x27Variant SKU\x27 mancante nel file Shopify"], g1⟩
    else
      let racc := reconcile avail shopify.rows
      let logs := logs ++
        ["   Totale SKU processati: " ++ toString racc.processed.length,
         "   Aggiornamenti inventory necessari: To 1=" ++ toString racc.stats.updates_1 ++
           ", To 0=" ++ toString racc.stats.updates_0]
      let dfOut : DF := if racc.rowsOut = [] then ⟨[], []⟩ else ⟨shopify.cols, racc.rowsOut⟩
      if dfOut.rows = [] then
        .ok ⟨dfOut, racc.stats, none, dupReport, logs ++ mkSummary racc.stats none, g1⟩
      else
        let cp := process_costs_and_prices defaultMarkupFile g1 dfOut
          (logs ++ ["4. Processing Costs and Prices..."])
        if cp.df.rows = [] then
          .ok ⟨cp.df, racc.stats, some cp.stats, dupReport,
            cp.logs ++ mkSummary racc.stats (some cp.stats), cp.globalTable⟩
        else
          match add_change_log_column cp.df shopify cp.globalTable
              (cp.logs ++ ["5. Generating Change Log..."]) with
          | .error e => .error e
          | .ok fin =>
            .ok ⟨fin.1, racc.stats, some cp.stats, dupReport,
              fin.2 ++ mkSummary racc.stats (some cp.stats), cp.globalTable⟩

-- ==========================================
-- Shared list/char lemmas
-- ==========================================

theorem isCodeChar_not_ws {c : Char} (h : isCodeChar c = true) : c.isWhitespace = false := by
  cases hw : c.isWhitespace
  · rfl
  · exfalso
    simp only [Char.isWhitespace, Bool.or_eq_true, decide_eq_true_eq] at hw
    rcases hw with ((rfl | rfl) | rfl) | rfl <;> exact absurd h (by decide)

theorem isCodeChar_toUpper {c : Char} (h : isCodeChar c = true) : c.toUpper = c := by
  simp only [isCodeChar, isDigitChar, Bool.or_eq_true, Bool.and_eq_true, decide_eq_true_eq] at h
  unfold Char.toUpper
  rw [if_neg]
  omega

theorem dropWhile_all_false {α} (p : α → Bool) (l : List α) (h : ∀ a ∈ l, p a = false) :
    l.dropWhile p = l := by
  cases l with
  | nil => rfl
  | cons a t => simp [List.dropWhile, h a (by simp)]

theorem dropWhile_idem {α} (p : α → Bool) (l : List α) :
    (l.dropWhile p).dropWhile p = l.dropWhile p := by
  induction l with
  | nil => rfl
  | cons a t ih =>
    by_cases hp : p a = true
    · simp [List.dropWhile, hp, ih]
    · simp [List.dropWhile, Bool.eq_false_iff.mpr hp]

theorem map_eq_self_of {α} (f : α → α) (l : List α) (h : ∀ a ∈ l, f a = a) :
    l.map f = l := by
  induction l with
  | nil => rfl
  | cons a t ih => simp [h a (by simp), ih (fun a ha => h a (by simp [ha]))]

theorem stripChars_eq_self (l : List Char) (h : ∀ c ∈ l, c.isWhitespace = false) :
    stripChars l = l := by
  unfold stripChars
  rw [dropWhile_all_false _ _ h,
    dropWhile_all_false _ _ (fun a ha => h a (List.mem_reverse.mp ha)),
    List.reverse_reverse]

theorem mem_cleanCodeList {a : Char} {l : List Char} (h : a ∈ cleanCodeList l) :
    isCodeChar a = true := by
  unfold cleanCodeList at h
  exact (List.mem_filter.mp ((List.dropWhile_sublist _).subset h)).2

theorem cleanCodeList_idem (l : List Char) :
    cleanCodeList (cleanCodeList l) = cleanCodeList l := by
  have hmem : ∀ a ∈ cleanCodeList l, isCodeChar a = true := fun a ha => mem_cleanCodeList ha
  show ((((stripChars (cleanCodeList l)).map Char.toUpper).filter isCodeChar).dropWhile
      (fun c => decide (c = '0'))) = cleanCodeList l
  rw [stripChars_eq_self _ (fun c hc => isCodeChar_not_ws (hmem c hc)),
    map_eq_self_of _ _ (fun c hc => isCodeChar_toUpper (hmem c hc)),
    List.filter_eq_self.mpr hmem]
  exact dropWhile_idem _ _

theorem cleanCodeStr_idem (s : String) : cleanCodeStr (cleanCodeStr s) = cleanCodeStr s :=
  congrArg String.mk (cleanCodeList_idem s.toList)

-- ==========================================
-- C9: clean_code is idempotent
-- ==========================================

/-- C9: `cleanCode` is idempotent — for every input string `x`,
`cleanCode (cleanCode x) = cleanCode x`, where `cleanCode` trims, uppercases,
strips every character outside `[A-Z0-9]` and strips leading `'0'`s; empty or
missing input yields the empty string. -/
theorem clean_code_idempotent :
    (∀ s : String,
      clean_code (some (.vstr (clean_code (some (.vstr s))))) = clean_code (some (.vstr s)))
    ∧ clean_code none = "" ∧ clean_code (some (.vstr "")) = "" := by
  refine ⟨fun s => ?_, rfl, rfl⟩
  by_cases h : s = ""
  · subst h; rfl
  · simp only [clean_code, if_neg h]
    by_cases h2 : cleanCodeStr s = ""
    · rw [h2]
      simp
    · simp only [if_neg h2]
      exact cleanCodeStr_idem s

-- ==========================================
-- Lemmas on the cost/price engine
-- ==========================================

theorem getC_append_none (r : Row) (c c' : String) :
    Row.getC (r ++ [(c, none)]) c' = Row.getC r c' := by
  unfold Row.getC
  induction r with
  | nil =>
    simp only [List.nil_append, List.lookup]
    cases h : c' == c <;> simp
  | cons hd t ih =>
    simp only [List.cons_append, List.lookup]
    split <;> simp_all

theorem getC_ensureCol (r : Row) (c c' : String) :
    Row.getC (ensureCol r c) c' = Row.getC r c' := by
  unfold ensureCol
  split
  · rfl
  · exact getC_append_none r c c'

theorem getC_ensureCPCols (r : Row) (c' : String) :
    Row.getC (ensureCPCols r) c' = Row.getC r c' := by
  unfold ensureCPCols
  rw [getC_ensureCol, getC_ensureCol]

theorem identify_ensureCPCols (r : Row) :
    identify_product_source (ensureCPCols r) = identify_product_source r := by
  unfold identify_product_source
  rw [getC_ensureCPCols, getC_ensureCPCols, getC_ensureCPCols, getC_ensureCPCols]

theorem cp_foldl_rows (table : MarkupTable) (rows : List Row) (acc : List Row × CPStats) :
    (rows.foldl (fun acc r =>
        let p := cpRow table r
        (acc.1 ++ [p.1], p.2 acc.2)) acc).1 =
      acc.1 ++ rows.map (fun r => (cpRow table r).1) := by
  induction rows generalizing acc with
  | nil => simp
  | cons r t ih => simp [ih]

theorem cp_foldl_stats (table : MarkupTable) (rows : List Row) (acc : List Row × CPStats) :
    (rows.foldl (fun acc r =>
        let p := cpRow table r
        (acc.1 ++ [p.1], p.2 acc.2)) acc).2 =
      rows.foldl (fun st r => (cpRow table r).2 st) acc.2 := by
  induction rows generalizing acc with
  | nil => rfl
  | cons r t ih => simp [ih]

theorem cpRow_stats_unknown (m : MarkupTable) (r : Row) (st : CPStats) :
    ((cpRow m r).2 st).total_unknown =
      st.total_unknown + (if identify_product_source r = .UNKNOWN then 1 else 0) := by
  unfold cpRow
  cases h : identify_product_source r <;> simp only [h] <;> try simp
  · split_ifs <;> simp
  · split <;> split_ifs <;> simp

theorem cpRow_unknown_row {m : MarkupTable} {r : Row}
    (h : identify_product_source r = .UNKNOWN) : (cpRow m r).1 = r := by
  unfold cpRow
  simp [h]

theorem stats_fold_unknown (table : MarkupTable) (rows : List Row) (st : CPStats) :
    (rows.foldl (fun st r => (cpRow table r).2 st) st).total_unknown =
      st.total_unknown +
        (rows.filter (fun r => decide (identify_product_source r = .UNKNOWN))).length := by
  induction rows generalizing st with
  | nil => simp
  | cons r t ih =>
    simp only [List.foldl_cons, ih, cpRow_stats_unknown, List.filter_cons]
    split_ifs with h <;> (simp_all; try omega)

theorem identify_iff (r : Row) :
    (identify_product_source r = .UNKNOWN ↔
      PyFloat.gtB (clean_numeric (Row.getC r COL_COSTO_BBR)) (.fin Frac.zero) = false ∧
      PyFloat.gtB (clean_numeric (Row.getC r COL_NET_PRICE)) (.fin Frac.zero) = false ∧
      PyFloat.leB (clean_numeric (Row.getC r COL_SHOPIFY_COST)) (.fin Frac.zero) = true) ∧
    (identify_product_source r = .BBR ↔
      (PyFloat.gtB (clean_numeric (Row.getC r COL_COSTO_BBR)) (.fin Frac.zero) = true ∨
       (PyFloat.gtB (clean_numeric (Row.getC r COL_COSTO_BBR)) (.fin Frac.zero) = false ∧
        PyFloat.gtB (clean_numeric (Row.getC r COL_NET_PRICE)) (.fin Frac.zero) = false ∧
        PyFloat.leB (clean_numeric (Row.getC r COL_SHOPIFY_COST)) (.fin Frac.zero) = false ∧
        (strContains (extract_brand_from_tags (Row.getC r COL_SHOPIFY_TAGS)) "BBR" = true ∨
         strContains (extract_brand_from_tags (Row.getC r COL_SHOPIFY_TAGS)) "BBR-MODELS" = true)))) ∧
    (identify_product_source r = .MCWS ↔
      PyFloat.gtB (clean_numeric (Row.getC r COL_COSTO_BBR)) (.fin Frac.zero) = false ∧
      (PyFloat.gtB (clean_numeric (Row.getC r COL_NET_PRICE)) (.fin Frac.zero) = true ∨
       (PyFloat.gtB (clean_numeric (Row.getC r COL_NET_PRICE)) (.fin Frac.zero) = false ∧
        PyFloat.leB (clean_numeric (Row.getC r COL_SHOPIFY_COST)) (.fin Frac.zero) = false ∧
        ¬(strContains (extract_brand_from_tags (Row.getC r COL_SHOPIFY_TAGS)) "BBR" = true ∨
          strContains (extract_brand_from_tags (Row.getC r COL_SHOPIFY_TAGS)) "BBR-MODELS" = true)))) := by
  unfold identify_product_source
  split_ifs with h1 h2 h3 <;>
    refine ⟨?_, ?_, ?_⟩ <;> simp_all <;>
      first
      | tauto
      | (cases hA : strContains (extract_brand_from_tags (Row.getC r COL_SHOPIFY_TAGS)) "BBR" <;>
          simp_all <;> try (split_ifs <;> simp_all))

-- ==========================================
-- C1: source attribution precedence (corrected)
-- ==========================================

/-- The C1 counterexample row: positive `Variant Cost`, no tags. -/
def c1Row : Row := [(COL_SHOPIFY_COST, some (.vstr "5"))]

/-- C1 counterexample: a row whose `Variant Cost` is positive but whose tags
yield no brand keyword match is attributed `MCWS` (the source's default
fallback), not `UNKNOWN` as the claim states. -/
theorem identify_source_no_brand_match_counterexample :
    PyFloat.gtB (clean_numeric (Row.getC c1Row COL_SHOPIFY_COST)) (.fin Frac.zero) = true ∧
    PyFloat.gtB (clean_numeric (Row.getC c1Row COL_COSTO_BBR)) (.fin Frac.zero) = false ∧
    PyFloat.gtB (clean_numeric (Row.getC c1Row COL_NET_PRICE)) (.fin Frac.zero) = false ∧
    extract_brand_from_tags (Row.getC c1Row COL_SHOPIFY_TAGS) = "" ∧
    identify_product_source c1Row = .MCWS ∧
    ¬identify_product_source c1Row = .UNKNOWN := by decide

/-- C1 (amended): source attribution precedence — positive `CostoBBRModels`
→ BBR; else positive `Net Price` → MCWS; else non-positive `Variant Cost` →
UNKNOWN; else BBR when the brand extracted from the tags contains `BBR`,
otherwise MCWS as a default fallback even with no brand keyword match.
UNKNOWN rows are excluded from cost/price processing (their cost and price
cells are carried through untouched) but still counted in `total_unknown`. -/
theorem identify_source_precedence :
    (∀ r : Row,
      (identify_product_source r = .UNKNOWN ↔
        PyFloat.gtB (clean_numeric (Row.getC r COL_COSTO_BBR)) (.fin Frac.zero) = false ∧
        PyFloat.gtB (clean_numeric (Row.getC r COL_NET_PRICE)) (.fin Frac.zero) = false ∧
        PyFloat.leB (clean_numeric (Row.getC r COL_SHOPIFY_COST)) (.fin Frac.zero) = true) ∧
      (identify_product_source r = .BBR ↔
        (PyFloat.gtB (clean_numeric (Row.getC r COL_COSTO_BBR)) (.fin Frac.zero) = true ∨
         (PyFloat.gtB (clean_numeric (Row.getC r COL_COSTO_BBR)) (.fin Frac.zero) = false ∧
          PyFloat.gtB (clean_numeric (Row.getC r COL_NET_PRICE)) (.fin Frac.zero) = false ∧
          PyFloat.leB (clean_numeric (Row.getC r COL_SHOPIFY_COST)) (.fin Frac.zero) = false ∧
          (strContains (extract_brand_from_tags (Row.getC r COL_SHOPIFY_TAGS)) "BBR" = true ∨
           strContains (extract_brand_from_tags (Row.getC r COL_SHOPIFY_TAGS)) "BBR-MODELS"
             = true)))) ∧
      (identify_product_source r = .MCWS ↔
        PyFloat.gtB (clean_numeric (Row.getC r COL_COSTO_BBR)) (.fin Frac.zero) = false ∧
        (PyFloat.gtB (clean_numeric (Row.getC r COL_NET_PRICE)) (.fin Frac.zero) = true ∨
         (PyFloat.gtB (clean_numeric (Row.getC r COL_NET_PRICE)) (.fin Frac.zero) = false ∧
          PyFloat.leB (clean_numeric (Row.getC r COL_SHOPIFY_COST)) (.fin Frac.zero) = false ∧
          ¬(strContains (extract_brand_from_tags (Row.getC r COL_SHOPIFY_TAGS)) "BBR" = true ∨
            strContains (extract_brand_from_tags (Row.getC r COL_SHOPIFY_TAGS)) "BBR-MODELS"
              = true))))) ∧
    (∀ (file : Option MarkupFile) (g : MarkupTable) (df : DF) (logs : List String),
      (process_costs_and_prices file g df logs).stats.total_unknown =
        (df.rows.filter (fun r => decide (identify_product_source r = .UNKNOWN))).length ∧
      ∀ r ∈ df.rows, identify_product_source r = .UNKNOWN →
        ensureCPCols r ∈ (process_costs_and_prices file g df logs).df.rows ∧
        Row.getC (ensureCPCols r) COL_SHOPIFY_COST = Row.getC r COL_SHOPIFY_COST ∧
        Row.getC (ensureCPCols r) COL_SHOPIFY_PRICE = Row.getC r COL_SHOPIFY_PRICE) := by
  refine ⟨identify_iff, fun file g df logs => ⟨?_, fun r hr hu => ⟨?_, ?_, ?_⟩⟩⟩
  · unfold process_costs_and_prices
    split
    · next he => simp [he, CPStats.init]
    · simp only [cp_foldl_stats, stats_fold_unknown, CPStats.init, List.filter_map,
        List.length_map]
      have : ((fun r => decide (identify_product_source r = Source.UNKNOWN)) ∘ ensureCPCols) =
          (fun r => decide (identify_product_source r = Source.UNKNOWN)) := by
        funext r
        simp [identify_ensureCPCols]
      rw [this]
      omega
  · unfold process_costs_and_prices
    split
    · next he => simp [he] at hr
    · simp only [cp_foldl_rows, List.nil_append]
      have h1 : identify_product_source (ensureCPCols r) = .UNKNOWN := by
        rw [identify_ensureCPCols]; exact hu
      have h2 : (cpRow (if g = [] then (load_markup_table file g).2 else g) (ensureCPCols r)).1 =
          ensureCPCols r := cpRow_unknown_row h1
      have h3 := List.mem_map_of_mem
        (fun row => (cpRow (if g = [] then (load_markup_table file g).2 else g) row).1)
        (List.mem_map_of_mem ensureCPCols hr)
      simpa [h2] using h3
  · exact getC_ensureCPCols r COL_SHOPIFY_COST
  · exact getC_ensureCPCols r COL_SHOPIFY_PRICE

/-- Witness for `identify_source_precedence` at a concrete UNKNOWN row. -/
theorem identify_source_precedence_witness :
    identify_product_source ([] : Row) = .UNKNOWN ∧
    ensureCPCols [] ∈ (process_costs_and_prices none [] ⟨[], [[]]⟩ []).df.rows := by
  have h := identify_source_precedence
  exact ⟨((h.1 []).1).mpr (by decide),
    (((h.2 none [] ⟨[], [[]]⟩ []).2 [] (by decide) (((h.1 []).1).mpr (by decide)))).1⟩

-- ==========================================
-- C5: supplier-B quantity gate (fails open)
-- ==========================================

theorem mem_insertNew_self (l : List String) (x : String) : x ∈ insertNew l x := by
  unfold insertNew
  split <;> simp [*]

theorem gtB0_leB0 {q : PyFloat} (h : PyFloat.gtB q (.fin Frac.zero) = true) :
    PyFloat.leB q (.fin Frac.zero) = false := by
  cases q <;> simp_all [PyFloat.gtB, PyFloat.leB, Frac.ltB, Frac.leB, Frac.zero]

/-- C5: for a supplier-B row with a non-empty normalized code, with the
quantity column present, the row's code is not added to the availability set
when the comma-normalized quantity parses to a value ≤ 0, is added when it
parses to a value > 0, and is added when the parse fails (fails open).
For a one-row frame the BBR builder is exactly this row step. -/
theorem bbr_quantity_gate (s : List String) (row : Row)
    (hne : clean_code (Row.getC row COL_BBR_SKU) ≠ "")
    (hnotin : clean_code (Row.getC row COL_BBR_SKU) ∉ s) :
    (pyFloatOfString (replaceChar (pyStrOfCell (Row.getC row COL_BBR_QTY)) ',' '.') = none →
      clean_code (Row.getC row COL_BBR_SKU) ∈ bbrStep true s row) ∧
    (∀ q, pyFloatOfString (replaceChar (pyStrOfCell (Row.getC row COL_BBR_QTY)) ',' '.') = some q →
      PyFloat.leB q (.fin Frac.zero) = true →
      clean_code (Row.getC row COL_BBR_SKU) ∉ bbrStep true s row) ∧
    (∀ q, pyFloatOfString (replaceChar (pyStrOfCell (Row.getC row COL_BBR_QTY)) ',' '.') = some q →
      PyFloat.gtB q (.fin Frac.zero) = true →
      clean_code (Row.getC row COL_BBR_SKU) ∈ bbrStep true s row) ∧
    buildAvailBbr ⟨[COL_BBR_SKU, COL_BBR_QTY], [row]⟩ s = bbrStep true s row := by
  refine ⟨fun hp => ?_, fun q hp hle => ?_, fun q hp hgt => ?_, ?_⟩
  · simp [bbrStep, hp, hne, mem_insertNew_self]
  · simp [bbrStep, hp, hle, hnotin]
  · simp [bbrStep, hp, gtB0_leB0 hgt, hne, mem_insertNew_self]
  · simp [buildAvailBbr, COL_BBR_SKU, COL_BBR_QTY]

/-- Witness for `bbr_quantity_gate`: an unparsable quantity is treated as
available and the code is added. -/
theorem bbr_quantity_gate_witness :
    "B1" ∈ bbrStep true []
      [(COL_BBR_SKU, some (.vstr "B1")), (COL_BBR_QTY, some (.vstr "abc"))] := by
  have h := bbr_quantity_gate []
    [(COL_BBR_SKU, some (.vstr "B1")), (COL_BBR_QTY, some (.vstr "abc"))]
    (by decide) (by decide)
  exact h.1 (by decide)

-- ==========================================
-- C10: plain float parse of the target quantity
-- ==========================================

/-- C10: the reconciler parses the target quantity with a plain `float()`
(no comma-to-dot normalization); a quantity string that only parses under
the comma-aware policy (and is positive there) fails this parse, the
current flag becomes 0, and a row whose code is in the availability set is
counted and rewritten as an activation. -/
theorem reconcile_plain_float_qty (avail : List String) (row : Row) (s : String)
    (hq : Row.find? row COL_SHOPIFY_QTY = some (some (.vstr s)))
    (hp : pyFloatOfString s = none)
    (_hpos : PyFloat.gtB (clean_numeric (some (.vstr s))) (.fin Frac.zero) = true)
    (hsku : clean_code (Row.getC row COL_SHOPIFY_SKU) ≠ "")
    (hmem : clean_code (Row.getC row COL_SHOPIFY_SKU) ∈ avail) :
    (reconcile avail [row]).stats.updates_1 = 1 ∧
    (reconcile avail [row]).rowsOut = [Row.set row COL_SHOPIFY_QTY (some (.vint 1))] := by
  have hcv : currentVal row = .fin Frac.zero := by
    unfold currentVal
    rw [hq]
    simp [hp]
  have hlogic : PyFloat.gtB (currentVal row) (.fin Frac.zero) = false := by
    rw [hcv]; rfl
  constructor <;>
    simp [reconcile, recStep, hsku, hmem, hlogic]

/-- Witness for `reconcile_plain_float_qty` at quantity `"1,5"`. -/
theorem reconcile_plain_float_qty_witness :
    (reconcile ["AB1"]
      [[(COL_SHOPIFY_SKU, some (.vstr "AB1")), (COL_SHOPIFY_QTY, some (.vstr "1,5"))]]
      ).stats.updates_1 = 1 := by
  have h := reconcile_plain_float_qty ["AB1"]
    [(COL_SHOPIFY_SKU, some (.vstr "AB1")), (COL_SHOPIFY_QTY, some (.vstr "1,5"))]
    "1,5" (by decide) (by decide) (by decide) (by decide) (by decide)
  exact h.1

-- ==========================================
-- C4: missing markup side file (corrected)
-- ==========================================

theorem mem_insertNew_mono {l : List String} {x : String} (y : String) (h : x ∈ l) :
    x ∈ insertNew l y := by
  unfold insertNew
  split
  · exact h
  · exact List.mem_append_left _ h

theorem cpRow_missing_mono (m : MarkupTable) (r : Row) (st : CPStats) {x : String}
    (h : x ∈ st.missing_markup_brands) :
    x ∈ ((cpRow m r).2 st).missing_markup_brands := by
  unfold cpRow
  cases hid : identify_product_source r <;> simp only [hid] <;> try simp [h]
  · split_ifs <;> simp [h]
  · split
    · split_ifs <;> simp [h]
    · split_ifs <;> simp [h, mem_insertNew_mono]

theorem cpRow_price_mcws_empty (r : Row) (st : CPStats) :
    ((cpRow [] r).2 st).price_updates_mcws = st.price_updates_mcws := by
  unfold cpRow
  cases hid : identify_product_source r <;> simp only [hid] <;> try simp
  · split_ifs <;> simp
  · split_ifs <;> simp

theorem cpRow_mcws_brand_added (r : Row) (st : CPStats)
    (hid : identify_product_source r = .MCWS)
    (hb : extract_brand_from_tags (Row.getC r COL_SHOPIFY_TAGS) ≠ "") :
    extract_brand_from_tags (Row.getC r COL_SHOPIFY_TAGS) ∈
      ((cpRow [] r).2 st).missing_markup_brands := by
  unfold cpRow
  simp only [hid]
  simp [hb, mem_insertNew_self]

theorem fold_missing_mono (rows : List Row) (st : CPStats) {x : String}
    (h : x ∈ st.missing_markup_brands) :
    x ∈ ((rows.foldl (fun st r => (cpRow [] r).2 st) st)).missing_markup_brands := by
  induction rows generalizing st with
  | nil => exact h
  | cons a t ih => exact ih _ (cpRow_missing_mono [] a st h)

theorem fold_price_mcws_empty (rows : List Row) (st : CPStats) :
    (rows.foldl (fun st r => (cpRow [] r).2 st) st).price_updates_mcws =
      st.price_updates_mcws := by
  induction rows generalizing st with
  | nil => rfl
  | cons a t ih => rw [List.foldl_cons, ih, cpRow_price_mcws_empty]

theorem fold_mcws_brand_added (rows : List Row) (st : CPStats) (r : Row) (hr : r ∈ rows)
    (hid : identify_product_source r = .MCWS)
    (hb : extract_brand_from_tags (Row.getC r COL_SHOPIFY_TAGS) ≠ "") :
    extract_brand_from_tags (Row.getC r COL_SHOPIFY_TAGS) ∈
      (rows.foldl (fun st r => (cpRow [] r).2 st) st).missing_markup_brands := by
  induction rows generalizing st with
  | nil => cases hr
  | cons a t ih =>
    rw [List.foldl_cons]
    rcases List.mem_cons.mp hr with rfl | hrt
    · exact fold_missing_mono t _ (cpRow_mcws_brand_added r st hid hb)
    · exact ih _ hrt

/-- The C4 counterexample target table: one row attributed MCWS via a
positive `Net Price`, with no tags (hence no extractable brand). -/
def c4Row : Row :=
  [(COL_SHOPIFY_SKU, some (.vstr "X1")), (COL_SHOPIFY_QTY, some (.vstr "1")),
   (COL_NET_PRICE, some (.vstr "10"))]

def c4Shop : DF :=
  ⟨[COL_SHOPIFY_SKU, COL_SHOPIFY_QTY, COL_NET_PRICE], [c4Row]⟩

/-- C4 counterexample: in a complete markup-file-missing run with exactly one
MCWS-attributed row, `missing_markup_brands` stays empty — the row has no
extractable brand, so not every MCWS-attributed row lands its brand in the
diagnostic set. -/
theorem markup_missing_counterexample :
    identify_product_source c4Row = .MCWS ∧
    extract_brand_from_tags (Row.getC c4Row COL_SHOPIFY_TAGS) = "" ∧
    (process_inventory_v02 c4Shop ⟨[], []⟩ ⟨[], []⟩ none none []).map (fun r => r.cpStats) =
      .ok (some ⟨0, 1, 0, 0, 0, 1, 0, []⟩) := by decide

/-- C4 (amended): when the markup side file is missing, `load_markup_table`
catches the read failure, returns an empty mapping and leaves the global
table untouched; with the markup table empty at run start (and the lazy
reload also failing) no MCWS price update ever occurs, and every
MCWS-attributed row whose extracted brand is non-empty lands its brand in
`missing_markup_brands` — rows with no extractable brand are not recorded. -/
theorem markup_missing_run :
    (∀ g : MarkupTable, load_markup_table none g = ([], g)) ∧
    (∀ (df : DF) (logs : List String),
      (process_costs_and_prices none [] df logs).stats.price_updates_mcws = 0 ∧
      ∀ r ∈ df.rows, identify_product_source r = .MCWS →
        extract_brand_from_tags (Row.getC r COL_SHOPIFY_TAGS) ≠ "" →
        extract_brand_from_tags (Row.getC r COL_SHOPIFY_TAGS) ∈
          (process_costs_and_prices none [] df logs).stats.missing_markup_brands) := by
  refine ⟨fun g => rfl, fun df logs => ?_⟩
  unfold process_costs_and_prices
  split
  · next he =>
    refine ⟨rfl, fun r hr => ?_⟩
    rw [he] at hr
    cases hr
  · next hne =>
    rw [show (load_markup_table none ([] : MarkupTable)).2 = [] from rfl]
    constructor
    · simp only [cp_foldl_stats, if_pos rfl]
      exact fold_price_mcws_empty _ _
    · intro r hr hid hb
      simp only [cp_foldl_stats, if_pos rfl]
      have hid2 : identify_product_source (ensureCPCols r) = .MCWS := by
        rw [identify_ensureCPCols]; exact hid
      have hb2 : extract_brand_from_tags (Row.getC (ensureCPCols r) COL_SHOPIFY_TAGS) ≠ "" := by
        rw [getC_ensureCPCols]; exact hb
      have := fold_mcws_brand_added (df.rows.map ensureCPCols) CPStats.init
        (ensureCPCols r) (List.mem_map_of_mem ensureCPCols hr) hid2 hb2
      rw [getC_ensureCPCols] at this
      exact this

/-- Witness for `markup_missing_run`: a tagged MCWS row's brand lands in the
diagnostic set and no MCWS price update happens. -/
theorem markup_missing_run_witness :
    (process_costs_and_prices none []
        ⟨[COL_NET_PRICE, COL_SHOPIFY_TAGS],
         [[(COL_NET_PRICE, some (.vstr "10")),
           (COL_SHOPIFY_TAGS, some (.vstr "brand_ferrari"))]]⟩ []).stats.price_updates_mcws = 0 ∧
    "FERRARI" ∈ (process_costs_and_prices none []
        ⟨[COL_NET_PRICE, COL_SHOPIFY_TAGS],
         [[(COL_NET_PRICE, some (.vstr "10")),
           (COL_SHOPIFY_TAGS, some (.vstr "brand_ferrari"))]]⟩ []).stats.missing_markup_brands := by
  have h := markup_missing_run.2
    ⟨[COL_NET_PRICE, COL_SHOPIFY_TAGS],
     [[(COL_NET_PRICE, some (.vstr "10")), (COL_SHOPIFY_TAGS, some (.vstr "brand_ferrari"))]]⟩ []
  refine ⟨h.1, ?_⟩
  have h2 := h.2 [(COL_NET_PRICE, some (.vstr "10")),
    (COL_SHOPIFY_TAGS, some (.vstr "brand_ferrari"))] (by decide) (by decide) (by decide)
  exact h2

-- ==========================================
-- C3: missing SKU column (corrected)
-- ==========================================

/-- A target table without the `Variant SKU` column. -/
def c3Shop : DF := ⟨[COL_SHOPIFY_QTY], [[(COL_SHOPIFY_QTY, some (.vstr "1"))]]⟩

/-- A supplier-A table with a `Trademark` column but no `Our Code` column:
the duplicate check's `row[code_col]` raises `KeyError`. -/
def c3Mcws : DF := ⟨[COL_MCWS_TRADEMARK], [[(COL_MCWS_TRADEMARK, some (.vstr "KYOSHO"))]]⟩

/-- C3 counterexample: an input whose target table lacks the SKU column on
which the run does NOT return the graceful empty result — the duplicate
check raises `KeyError` (uncaught) before the SKU check is reached. -/
theorem missing_sku_counterexample :
    COL_SHOPIFY_SKU ∉ c3Shop.cols ∧
    process_inventory_v02 c3Shop c3Mcws ⟨[], []⟩ none none [] = .error "KeyError" := by decide

/-- C3 (amended): when the target table lacks the SKU column and the
duplicate-check stage completes (the supplier-A table lacks a Trademark
column, or has the `Our Code` column, or is empty), the run aborts without
raising: it returns an empty output table, zeroed inventory statistics, no
cost/price statistics, and an explanatory error line as the last log entry,
with the duplicate report left as computed before the check.  An
exception-propagating path for inputs lacking the SKU column does exist
(the duplicate check's `KeyError`), so callers must handle both. -/
theorem missing_sku_graceful :
    (∀ (shopify mcws bbr : DF) (mf dmf : Option MarkupFile) (g0 : MarkupTable),
      COL_SHOPIFY_SKU ∉ shopify.cols →
      (COL_MCWS_TRADEMARK ∉ mcws.cols ∨ COL_MCWS_OUR_CODE ∈ mcws.cols ∨ mcws.rows = []) →
      ∃ res, process_inventory_v02 shopify mcws bbr mf dmf g0 = .ok res ∧
        res.output = ⟨[], []⟩ ∧
        res.invStats = ⟨0, 0, 0⟩ ∧
        res.cpStats = none ∧
        res.logs.getLast? =
          some "ERRORE: Colonna \x27Variant SKU\x27 mancante nel file Shopify") ∧
    (∃ (shopify mcws bbr : DF), COL_SHOPIFY_SKU ∉ shopify.cols ∧
      ∃ e, process_inventory_v02 shopify mcws bbr none none [] = .error e) := by
  constructor
  · intro shopify mcws bbr mf dmf g0 hsku hdup
    unfold process_inventory_v02
    have hok : dupCheckStage mcws =
        .ok (if COL_MCWS_TRADEMARK ∈ mcws.cols then
          ((codeGroups mcws.rows COL_MCWS_OUR_CODE).filter (fun g => 1 < g.2.length)).foldl
            (fun acc g =>
              g.2.foldl (fun acc2 i =>
                let e := dupEntryOf mcws.rows COL_MCWS_TRADEMARK g.1 i
                (if e.isValidTrademark then acc2.1 ++ [i] else acc2.1, acc2.2 ++ [e])) acc)
            ([], [])
        else ([], [])) := by
      unfold dupCheckStage
      by_cases htm : COL_MCWS_TRADEMARK ∈ mcws.cols
      · rcases hdup with hdup | hdup | hdup
        · exact absurd htm hdup
        · simp only [if_pos htm]
          unfold find_duplicate_codes_with_trademark_check
          rw [if_neg (by simp [hdup])]
        · simp only [if_pos htm]
          unfold find_duplicate_codes_with_trademark_check
          rw [if_neg (by simp [hdup])]
      · simp [htm]
    rw [hok]
    simp only [if_pos hsku]
    exact ⟨_, rfl, rfl, rfl, rfl, List.getLast?_concat _⟩
  · exact ⟨c3Shop, c3Mcws, ⟨[], []⟩, by decide, "KeyError", by decide⟩

/-- Witness for `missing_sku_graceful` at a concrete SKU-less input. -/
theorem missing_sku_graceful_witness :
    ∃ res, process_inventory_v02 c3Shop ⟨[], []⟩ ⟨[], []⟩ none none [] = .ok res ∧
      res.output = ⟨[], []⟩ ∧
      res.invStats = ⟨0, 0, 0⟩ ∧
      res.cpStats = none ∧
      res.logs.getLast? =
        some "ERRORE: Colonna \x27Variant SKU\x27 mancante nel file Shopify" :=
  missing_sku_graceful.1 c3Shop ⟨[], []⟩ ⟨[], []⟩ none none [] (by decide) (by decide)

-- ==========================================
-- C8: concrete reactivation scenario
-- ==========================================

/-- The C8 target table: `sku = "K-123"`, `qty = "0"`. -/
def shopC8 : DF := ⟨[COL_SHOPIFY_SKU, COL_SHOPIFY_QTY],
  [[(COL_SHOPIFY_SKU, some (.vstr "K-123")), (COL_SHOPIFY_QTY, some (.vstr "0"))]]⟩

/-- A supplier-A table whose only code normalizes to `K123` (no trademark
column, so all codes are accepted). -/
def mcwsC8 : DF := ⟨[COL_MCWS_OUR_CODE], [[(COL_MCWS_OUR_CODE, some (.vstr "K123"))]]⟩

/-- C8: running the full pipeline on a target row `sku="K-123", qty=0` with
`K123` in the availability set yields one output row with `qty = 1`, the
activation counter `updates_1 = 1`, and the change log
`"QTY: 0→1 (RIATTIVATO)"`. -/
theorem reactivation_scenario :
    (process_inventory_v02 shopC8 mcwsC8 ⟨[], []⟩ none none []).map
      (fun res => (res.invStats.updates_1,
        res.output.rows.map (fun row => Row.getC row COL_SHOPIFY_QTY),
        res.output.rows.map (fun row => Row.getC row COL_CHANGE_LOG))) =
    .ok (1, [some (.vint 1)], [some (.vstr "QTY: 0→1 (RIATTIVATO)")]) := by decide

-- ==========================================
-- Reconciler lemmas (C6, C2)
-- ==========================================

/-- The normalized SKU the reconciler keys a target row by. -/
def skuOf (row : Row) : String := clean_code (Row.getC row COL_SHOPIFY_SKU)

/-- A row on which the reconciler's decision table takes no action. -/
def recNoChange (avail : List String) (row : Row) : Prop :=
  skuOf row ≠ "" ∧
  ((skuOf row ∈ avail ∧ PyFloat.gtB (currentVal row) (.fin Frac.zero) = true) ∨
   (skuOf row ∉ avail ∧ PyFloat.gtB (currentVal row) (.fin Frac.zero) = false))

theorem lookup_set_ne (r : Row) (k k' : String) (v : Cell) (h : k' ≠ k) :
    List.lookup k' (Row.set r k v) = List.lookup k' r := by
  induction r with
  | nil =>
    simp only [Row.set, List.lookup]
    rw [show (k' == k) = false by simp [h]]
  | cons hd t ih =>
    by_cases hk : hd.1 = k
    · simp only [Row.set, if_pos hk, List.lookup]
      rw [show (k' == k) = false by simp [h], show (k' == hd.1) = false by simp [hk ▸ h]]
    · simp only [Row.set, if_neg hk, List.lookup]
      cases heq : k' == hd.1 <;> simp [ih]

theorem lookup_set_self (r : Row) (k : String) (v : Cell) :
    List.lookup k (Row.set r k v) = some v := by
  induction r with
  | nil => simp [Row.set, List.lookup]
  | cons hd t ih =>
    by_cases hk : hd.1 = k
    · simp [Row.set, if_pos hk, List.lookup]
    · simp only [Row.set, if_neg hk, List.lookup]
      rw [show (k == hd.1) = false by rw [beq_eq_false_iff_ne]; exact fun he => hk he.symm]
      exact ih

theorem skuOf_set_qty (row : Row) (v : Cell) :
    skuOf (Row.set row COL_SHOPIFY_QTY v) = skuOf row := by
  unfold skuOf Row.getC
  rw [lookup_set_ne _ _ _ _ (by decide)]

theorem currentVal_set_qty (row : Row) (n : ℤ) :
    currentVal (Row.set row COL_SHOPIFY_QTY (some (.vint n))) = .fin (Frac.ofInt n) := by
  unfold currentVal Row.find?
  rw [lookup_set_self]

/-- What one reconciler step can do: leave the accumulator's processed set
and output untouched, or process a fresh non-empty SKU and append one row
carrying that SKU on which a second look changes nothing. -/
theorem recStep_shape (avail : List String) (a : RecAcc) (row : Row) :
    ((recStep avail a row).processed = a.processed ∧
     (recStep avail a row).rowsOut = a.rowsOut) ∨
    (skuOf row ≠ "" ∧ skuOf row ∉ a.processed ∧
     (recStep avail a row).processed = a.processed ++ [skuOf row] ∧
     ∃ r', (recStep avail a row).rowsOut = a.rowsOut ++ [r'] ∧ skuOf r' = skuOf row ∧
       recNoChange avail r') := by
  unfold recStep
  by_cases h1 : clean_code (Row.getC row COL_SHOPIFY_SKU) = ""
  · left
    simp [h1]
  · by_cases h2 : clean_code (Row.getC row COL_SHOPIFY_SKU) ∈ a.processed
    · left
      simp [h1, h2]
    · right
      refine ⟨h1, h2, ?_⟩
      by_cases h3 : clean_code (Row.getC row COL_SHOPIFY_SKU) ∈ avail ∧
          PyFloat.gtB (currentVal row) (.fin Frac.zero) = false
      · refine ⟨by simp [h1, h2, h3, skuOf], Row.set row COL_SHOPIFY_QTY (some (.vint 1)),
          by simp [h1, h2, h3], skuOf_set_qty row _, ?_⟩
        unfold recNoChange
        rw [skuOf_set_qty, currentVal_set_qty]
        exact ⟨h1, Or.inl ⟨h3.1, by decide⟩⟩
      · by_cases h4 : clean_code (Row.getC row COL_SHOPIFY_SKU) ∉ avail ∧
            PyFloat.gtB (currentVal row) (.fin Frac.zero) = true
        · refine ⟨by simp [h1, h2, h3, h4, skuOf], Row.set row COL_SHOPIFY_QTY (some (.vint 0)),
            by simp [h1, h2, h3, h4], skuOf_set_qty row _, ?_⟩
          unfold recNoChange
          rw [skuOf_set_qty, currentVal_set_qty]
          exact ⟨h1, Or.inr ⟨h4.1, by decide⟩⟩
        · refine ⟨by simp [h1, h2, h3, h4, skuOf], row, by simp [h1, h2, h3, h4], rfl, ?_⟩
          unfold recNoChange
          refine ⟨h1, ?_⟩
          rcases Bool.eq_false_or_eq_true (PyFloat.gtB (currentVal row) (.fin Frac.zero))
            with hl | hl
          · left
            refine ⟨?_, hl⟩
            by_contra hm
            exact h4 ⟨hm, hl⟩
          · right
            exact ⟨fun hm => h3 ⟨hm, hl⟩, hl⟩

/-- First-pass invariant: every carried row is a no-change row on a second
look, its SKU is recorded as processed, and the carried SKUs are distinct. -/
theorem rec_pass_invariant (avail : List String) (rows : List Row) :
    ∀ a : RecAcc,
      (∀ r ∈ a.rowsOut, recNoChange avail r) →
      (∀ r ∈ a.rowsOut, skuOf r ∈ a.processed) →
      (a.rowsOut.map skuOf).Nodup →
      (∀ r ∈ (rows.foldl (recStep avail) a).rowsOut, recNoChange avail r) ∧
      ((rows.foldl (recStep avail) a).rowsOut.map skuOf).Nodup := by
  induction rows with
  | nil => exact fun a h1 h2 h3 => ⟨h1, h3⟩
  | cons row t ih =>
    intro a h1 h2 h3
    rw [List.foldl_cons]
    rcases recStep_shape avail a row with ⟨hp, hr⟩ | ⟨hne, hnp, hp, r', hr, hsku, hnc⟩
    · exact ih _ (hr ▸ h1) (by rw [hp, hr]; exact h2) (hr ▸ h3)
    · refine ih _ ?_ ?_ ?_
      · rw [hr]
        intro r hm
        rcases List.mem_append.mp hm with hm | hm
        · exact h1 r hm
        · rw [List.mem_singleton.mp hm]
          exact hnc
      · rw [hr, hp]
        intro r hm
        rcases List.mem_append.mp hm with hm | hm
        · exact List.mem_append_left _ (h2 r hm)
        · rw [List.mem_singleton.mp hm, hsku]
          exact List.mem_append_right _ (List.mem_singleton_self _)
      · rw [hr, List.map_append]
        simp only [List.map_cons, List.map_nil, hsku]
        rw [List.nodup_append]
        refine ⟨h3, List.nodup_singleton _, ?_⟩
        intro x hx
        simp only [List.mem_singleton]
        intro hxe
        rcases List.mem_map.mp hx with ⟨r0, hr0, hsk⟩
        exact hnp (hxe ▸ hsk ▸ h2 r0 hr0)

/-- Every row the reconciler carries to the output keeps the normalized SKU
of some input row, and that SKU is non-empty. -/
theorem rec_rowsOut_from (avail : List String) (rows : List Row) :
    ∀ a : RecAcc, ∀ r' ∈ (rows.foldl (recStep avail) a).rowsOut,
      r' ∈ a.rowsOut ∨ ∃ row ∈ rows, skuOf r' = skuOf row ∧ skuOf row ≠ "" := by
  induction rows with
  | nil => exact fun a r' h => Or.inl h
  | cons row t ih =>
    intro a r' hmem
    rw [List.foldl_cons] at hmem
    rcases ih _ r' hmem with hin | ⟨row0, hrow0, hsk, hske⟩
    · rcases recStep_shape avail a row with ⟨_, hr⟩ | ⟨hne, _, _, r'', hr, hsku, _⟩
      · exact Or.inl (hr ▸ hin)
      · rw [hr] at hin
        rcases List.mem_append.mp hin with hin | hin
        · exact Or.inl hin
        · exact Or.inr ⟨row, List.mem_cons_self _ _,
            (List.mem_singleton.mp hin) ▸ hsku, hne⟩
    · exact Or.inr ⟨row0, List.mem_cons_of_mem _ hrow0, hsk, hske⟩

/-- Second pass over no-change rows with fresh distinct SKUs: every row is
counted and carried through unchanged, with no updates. -/
theorem rec_second_pass (avail : List String) (l : List Row) :
    ∀ a : RecAcc,
      (∀ r ∈ l, recNoChange avail r) →
      (l.map skuOf).Nodup →
      (∀ r ∈ l, skuOf r ∉ a.processed) →
      l.foldl (recStep avail) a =
        ⟨⟨a.stats.total + l.length, a.stats.updates_1, a.stats.updates_0⟩,
         a.processed ++ l.map skuOf, a.rowsOut ++ l⟩ := by
  induction l with
  | nil =>
    intro a _ _ _
    simp
  | cons r t ih =>
    intro a hnc hnd hfresh
    have hncr := hnc r (List.mem_cons_self _ _)
    have hfr : clean_code (Row.getC r COL_SHOPIFY_SKU) ∉ a.processed := by
      simpa [skuOf] using hfresh r (List.mem_cons_self _ _)
    have hstep : recStep avail a r =
        ⟨⟨a.stats.total + 1, a.stats.updates_1, a.stats.updates_0⟩,
         a.processed ++ [skuOf r], a.rowsOut ++ [r]⟩ := by
      obtain ⟨hne, hcase⟩ := hncr
      simp only [skuOf] at hne
      unfold recStep
      rcases hcase with ⟨hmem, hl⟩ | ⟨hmem, hl⟩ <;>
        simp only [skuOf] at hmem <;>
        simp [hne, hfr, hmem, hl, skuOf]
    have hfresh2 : ∀ r0 ∈ t, skuOf r0 ∉ a.processed ++ [skuOf r] := by
      intro r0 hm
      simp only [List.mem_append, List.mem_singleton]
      rintro (hp | hp)
      · exact hfresh r0 (List.mem_cons_of_mem _ hm) hp
      · have : skuOf r ∈ t.map skuOf := hp ▸ List.mem_map_of_mem skuOf hm
        exact (List.nodup_cons.mp (by simpa using hnd)).1 this
    rw [List.foldl_cons, hstep,
      ih _ (fun r hm => hnc r (List.mem_cons_of_mem _ hm)) (List.Nodup.of_cons hnd) hfresh2]
    simp only [RecAcc.mk.injEq, InvStats.mk.injEq, List.append_assoc, List.singleton_append,
      List.length_cons, List.map_cons]
    refine ⟨⟨by omega, trivial, trivial⟩, trivial, trivial⟩

-- ==========================================
-- C6: the reconciler is idempotent
-- ==========================================

/-- C6: running the reconciler a second time on its own output, against the
same availability set, changes nothing — the second pass carries every row
through unchanged, counts them all, and performs zero activations
(`updates_1`) and zero deactivations (`updates_0`). -/
theorem reconciler_idempotent (avail : List String) (rows : List Row) :
    (reconcile avail ((reconcile avail rows).rowsOut)).rowsOut =
      (reconcile avail rows).rowsOut ∧
    (reconcile avail ((reconcile avail rows).rowsOut)).stats.updates_1 = 0 ∧
    (reconcile avail ((reconcile avail rows).rowsOut)).stats.updates_0 = 0 ∧
    (reconcile avail ((reconcile avail rows).rowsOut)).stats.total =
      (reconcile avail rows).rowsOut.length := by
  have hinv := rec_pass_invariant avail rows ⟨⟨0, 0, 0⟩, [], []⟩
    (by simp) (by simp) (by simp)
  have h2 := rec_second_pass avail ((reconcile avail rows).rowsOut) ⟨⟨0, 0, 0⟩, [], []⟩
    hinv.1 hinv.2 (by simp)
  have h3 : reconcile avail ((reconcile avail rows).rowsOut) =
      ⟨⟨0 + (reconcile avail rows).rowsOut.length, 0, 0⟩,
       [] ++ ((reconcile avail rows).rowsOut).map skuOf,
       [] ++ (reconcile avail rows).rowsOut⟩ := h2
  rw [h3]
  simp

-- ==========================================
-- Change-log lemmas (C2)
-- ==========================================

theorem getC_set_self (r : Row) (k : String) (v : Cell) : Row.getC (Row.set r k v) k = v := by
  unfold Row.getC
  rw [lookup_set_self]
  rfl

theorem skuOf_set (row : Row) (k : String) (v : Cell) (h : COL_SHOPIFY_SKU ≠ k) :
    skuOf (Row.set row k v) = skuOf row := by
  unfold skuOf Row.getC
  rw [lookup_set_ne _ _ _ _ h]

theorem skuOf_ensureCPCols (r : Row) : skuOf (ensureCPCols r) = skuOf r := by
  unfold skuOf
  rw [getC_ensureCPCols]

theorem skuOf_cpRowT (m : MarkupTable) (r : Row) : skuOf ((cpRow m r).1) = skuOf r := by
  have hc : ∀ (row : Row) v, skuOf (Row.set row COL_SHOPIFY_COST v) = skuOf row :=
    fun row v => skuOf_set row _ v (by decide)
  have hp : ∀ (row : Row) v, skuOf (Row.set row COL_SHOPIFY_PRICE v) = skuOf row :=
    fun row v => skuOf_set row _ v (by decide)
  unfold cpRow
  cases h : identify_product_source r <;> simp only [h] <;> try rfl
  · split_ifs <;> simp [hc, hp]
  · split
    · split_ifs <;> simp [hc, hp]
    · split_ifs <;> simp [hc, hp]

theorem lookup_dictInsertR_self (m : List (String × Row)) (k : String) (v : Row) :
    List.lookup k (dictInsertR m k v) = some v := by
  induction m with
  | nil => simp [dictInsertR, List.lookup]
  | cons hd t ih =>
    by_cases hk : hd.1 = k
    · simp [dictInsertR, if_pos hk, List.lookup]
    · simp only [dictInsertR, if_neg hk, List.lookup]
      rw [show (k == hd.1) = false by rw [beq_eq_false_iff_ne]; exact fun he => hk he.symm]
      exact ih

theorem lookup_dictInsertR_isSome (m : List (String × Row)) (k k' : String) (v : Row)
    (h : (List.lookup k m).isSome) : (List.lookup k (dictInsertR m k' v)).isSome := by
  induction m with
  | nil => simp [List.lookup] at h
  | cons hd t ih =>
    by_cases hk : hd.1 = k'
    · simp only [dictInsertR, if_pos hk, List.lookup]
      cases hkk : k == k'
      · simp only [List.lookup, hk, hkk] at h
        simpa [hkk] using h
      · simp [hkk]
    · simp only [dictInsertR, if_neg hk, List.lookup] at h ⊢
      cases hkk : k == hd.1
      · simp only [hkk] at h
        simpa [hkk] using ih h
      · simp [hkk]

theorem origFold_preserves (rows : List Row) (k : String) :
    ∀ m, (List.lookup k m).isSome →
      (List.lookup k (rows.foldl (fun m row =>
        let sku := clean_code (Row.getC row COL_SHOPIFY_SKU)
        if sku ≠ "" then dictInsertR m sku row else m) m)).isSome := by
  induction rows with
  | nil => exact fun m h => h
  | cons a t ih =>
    intro m h
    rw [List.foldl_cons]
    apply ih
    by_cases ha : clean_code (Row.getC a COL_SHOPIFY_SKU) ≠ ""
    · simp only [if_pos ha]
      cases hk : List.lookup k m with
      | none => simp [hk] at h
      | some v0 =>
        by_cases hkk : k = clean_code (Row.getC a COL_SHOPIFY_SKU)
        · subst hkk
          rw [lookup_dictInsertR_self]
          rfl
        · exact lookup_dictInsertR_isSome m _ _ _ h
    · simpa [if_neg ha] using h

theorem originalBySku_hasKey_aux (rows : List Row) :
    ∀ (m : List (String × Row)) (r0 : Row), r0 ∈ rows → skuOf r0 ≠ "" →
      (List.lookup (skuOf r0) (rows.foldl (fun m row =>
        let sku := clean_code (Row.getC row COL_SHOPIFY_SKU)
        if sku ≠ "" then dictInsertR m sku row else m) m)).isSome := by
  induction rows with
  | nil => intro m r0 h; cases h
  | cons a t ih =>
    intro m r0 h0 hne
    rw [List.foldl_cons]
    rcases List.mem_cons.mp h0 with rfl | h0
    · apply origFold_preserves
      simp only [if_pos (show clean_code (Row.getC r0 COL_SHOPIFY_SKU) ≠ "" from hne)]
      rw [show skuOf r0 = clean_code (Row.getC r0 COL_SHOPIFY_SKU) from rfl,
        lookup_dictInsertR_self]
      rfl
    · exact ih _ r0 h0 hne

theorem originalBySku_hasKey (orig : DF) (r0 : Row) (h0 : r0 ∈ orig.rows)
    (hne : skuOf r0 ≠ "") :
    (List.lookup (skuOf r0) (originalBySku orig)).isSome :=
  originalBySku_hasKey_aux orig.rows [] r0 h0 hne

theorem joinSep_cons (sep x : String) (xs : List String) :
    ∃ t, joinSep sep (x :: xs) = x ++ t := by
  cases xs with
  | nil => exact ⟨"", by simp [joinSep]⟩
  | cons y ys =>
    refine ⟨sep ++ joinSep sep (y :: ys), ?_⟩
    rw [← String.append_assoc]
    rfl

theorem strContains_of_pref (u t : String) : strContains (u ++ t) u = true := by
  unfold strContains
  rw [decide_eq_true_eq]
  exact ⟨[], t.toList, by simp [String.data_append]⟩

theorem append_pref (u w : String) {v : String} (h : ∃ t, v = u ++ t) :
    ∃ t, v ++ w = u ++ t := by
  obtain ⟨t, rfl⟩ := h
  exact ⟨t ++ w, by rw [String.append_assoc]⟩

theorem qtyChanges_entries (origRow row : Row) (qc : List String)
    (h : qtyChanges origRow row = .ok qc) : ∀ e ∈ qc, ∃ t, e = "QTY" ++ t := by
  unfold qtyChanges at h
  dsimp only at h
  split at h
  · cases hoq : pyTrunc (clean_numeric (Row.getC origRow COL_SHOPIFY_QTY)) with
    | error e0 => rw [hoq] at h; simp at h
    | ok a =>
      cases hnq : pyTrunc (clean_numeric (Row.getC row COL_SHOPIFY_QTY)) with
      | error e0 => rw [hoq, hnq] at h; simp at h
      | ok b =>
        rw [hoq, hnq] at h
        simp only [Except.ok.injEq] at h
        subst h
        intro e he
        rw [List.mem_singleton] at he
        subst he
        have hq : ∃ t, ("QTY: " : String) = "QTY" ++ t := ⟨": ", rfl⟩
        split_ifs
        · exact append_pref _ _ (append_pref _ _ (append_pref _ _ (append_pref _ _ hq)))
        · exact append_pref _ _ (append_pref _ _ (append_pref _ _ (append_pref _ _ hq)))
        · exact append_pref _ _ (append_pref _ _ (append_pref _ _ hq))
  · simp only [Except.ok.injEq] at h
    subst h
    intro e he
    cases he

theorem costChanges_entries (origRow row : Row) :
    ∀ e ∈ costChanges origRow row, ∃ t, e = "COST" ++ t := by
  unfold costChanges
  have hb : ∃ t, ("COST BBR: " : String) = "COST" ++ t := ⟨" BBR: ", rfl⟩
  have hm : ∃ t, ("COST MCWS: " : String) = "COST" ++ t := ⟨" MCWS: ", rfl⟩
  cases identify_product_source row <;> simp only []
  · split_ifs
    · intro e he
      rw [List.mem_singleton] at he
      subst he
      exact append_pref _ _ (append_pref _ _ (append_pref _ _ (append_pref _ _
        (append_pref _ _ (append_pref _ _ hb)))))
    · intro e he; cases he
  · split_ifs
    · intro e he
      rw [List.mem_singleton] at he
      subst he
      exact append_pref _ _ (append_pref _ _ (append_pref _ _ (append_pref _ _
        (append_pref _ _ (append_pref _ _ hm)))))
    · intro e he; cases he
  · intro e he; cases he

theorem mapLog_mem (markup : MarkupTable) (m : List (String × Row)) (l : List Row)
    (ps : List (Row × Bool)) (h : mapLog markup m l = .ok ps) :
    ∀ p ∈ ps, ∃ r ∈ l, logCompute markup m r = .ok p := by
  induction l generalizing ps with
  | nil =>
    simp only [mapLog, Except.ok.injEq] at h
    subst h
    intro p hp; cases hp
  | cons r t ih =>
    simp only [mapLog] at h
    cases hlc : logCompute markup m r with
    | error e => rw [hlc] at h; simp at h
    | ok p0 =>
      rw [hlc] at h
      cases hml : mapLog markup m t with
      | error e => rw [hml] at h; simp at h
      | ok ps0 =>
        rw [hml] at h
        simp only [Except.ok.injEq] at h
        subst h
        intro p hp
        rcases List.mem_cons.mp hp with rfl | hp
        · exact ⟨r, List.mem_cons_self _ _, hlc⟩
        · obtain ⟨r1, hr1, hl1⟩ := ih ps0 hml p hp
          exact ⟨r1, List.mem_cons_of_mem _ hr1, hl1⟩

theorem ne_empty_of_append_left (u v : String) (hu : u.data ≠ []) : (u ++ v) ≠ "" := by
  intro h
  apply hu
  have hd := congrArg String.data h
  rw [String.data_append] at hd
  exact (List.append_eq_nil.mp hd).1

theorem logCompute_shape (markup : MarkupTable) (m : List (String × Row)) (row : Row)
    (origRow : Row) (pr : Row × Bool)
    (hl : List.lookup (clean_code (Row.getC row COL_SHOPIFY_SKU)) m = some origRow)
    (h : logCompute markup m row = .ok pr) :
    ∃ qc, qtyChanges origRow row = .ok qc ∧
      ((qc ++ costChanges origRow row = [] ∧
        Row.getC pr.1 COL_CHANGE_LOG = some (.vstr "")) ∨
       (qc ++ costChanges origRow row ≠ [] ∧
        Row.getC pr.1 COL_CHANGE_LOG =
          some (.vstr (joinSep " | " ((qc ++ costChanges origRow row) ++
            priceChangesOf markup origRow row))))) := by
  unfold logCompute at h
  dsimp only at h
  rw [hl] at h
  dsimp only at h
  cases hq : qtyChanges origRow row with
  | error e => rw [hq] at h; simp at h
  | ok qc =>
    rw [hq] at h
    dsimp only at h
    refine ⟨qc, rfl, ?_⟩
    by_cases hc : qc ++ costChanges origRow row = []
    · rw [if_neg (by simp [hc])] at h
      simp only [Except.ok.injEq] at h
      rw [← h]
      exact Or.inl ⟨hc, getC_set_self _ _ _⟩
    · rw [if_pos hc] at h
      have hall : (qc ++ costChanges origRow row) ++ priceChangesOf markup origRow row ≠ [] :=
        fun he => hc (List.append_eq_nil.mp he).1
      rw [if_pos hall] at h
      simp only [Except.ok.injEq] at h
      rw [← h]
      exact Or.inr ⟨hc, getC_set_self _ _ _⟩

theorem add_change_log_kept (df orig : DF) (markup : MarkupTable) (logs : List String)
    (out : DF × List String)
    (hok : add_change_log_column df orig markup logs = .ok out)
    (hsk : ∀ r ∈ df.rows, ∃ row0,
      List.lookup (clean_code (Row.getC r COL_SHOPIFY_SKU)) (originalBySku orig) = some row0) :
    ∀ r ∈ out.1.rows, ∃ s, Row.getC r COL_CHANGE_LOG = some (.vstr s) ∧ s ≠ "" ∧
      (strContains s "QTY" = true ∨ strContains s "COST" = true) := by
  unfold add_change_log_column at hok
  split at hok
  · next he =>
    simp only [Except.ok.injEq] at hok
    subst hok
    intro r hr
    rw [he] at hr
    cases hr
  · dsimp only at hok
    cases hml : mapLog markup (originalBySku orig) df.rows with
    | error e => rw [hml] at hok; simp at hok
    | ok processed =>
      rw [hml] at hok
      simp only [Except.ok.injEq] at hok
      subst hok
      intro r hr
      rw [List.mem_filter] at hr
      obtain ⟨hmem, hcond⟩ := hr
      obtain ⟨p, hp, hpr⟩ := List.mem_map.mp hmem
      subst hpr
      obtain ⟨row0, hrow0, hlc⟩ := mapLog_mem _ _ _ _ hml p hp
      obtain ⟨origRow, horig⟩ := hsk row0 hrow0
      obtain ⟨qc, hqc, hcase⟩ := logCompute_shape markup _ row0 origRow p horig hlc
      rcases hcase with ⟨_, hlog⟩ | ⟨hcne, hlog⟩
      · rw [hlog] at hcond
        simp at hcond
      · cases hqcc : qc with
        | cons e rest =>
          rw [hqcc] at hlog
          have hli : ((e :: rest) ++ costChanges origRow row0) ++
              priceChangesOf markup origRow row0 =
              e :: ((rest ++ costChanges origRow row0) ++
                priceChangesOf markup origRow row0) := by simp
          rw [hli] at hlog
          obtain ⟨tj, hj⟩ := joinSep_cons " | " e _
          rw [hj] at hlog
          obtain ⟨t0, he0⟩ := qtyChanges_entries origRow row0 qc hqc e
            (hqcc ▸ List.mem_cons_self _ _)
          rw [he0, String.append_assoc] at hlog
          exact ⟨_, hlog, ne_empty_of_append_left _ _ (by decide),
            Or.inl (strContains_of_pref _ _)⟩
        | nil =>
          rw [hqcc] at hlog hcne
          cases hcc : costChanges origRow row0 with
          | nil => rw [hcc] at hcne; simp at hcne
          | cons e rest =>
            rw [hcc] at hlog
            have hli : (([] ++ (e :: rest)) : List String) ++
                priceChangesOf markup origRow row0 =
                e :: (rest ++ priceChangesOf markup origRow row0) := by simp
            rw [hli] at hlog
            obtain ⟨tj, hj⟩ := joinSep_cons " | " e _
            rw [hj] at hlog
            obtain ⟨t0, he0⟩ := costChanges_entries origRow row0 e
              (hcc ▸ List.mem_cons_self _ _)
            rw [he0, String.append_assoc] at hlog
            exact ⟨_, hlog, ne_empty_of_append_left _ _ (by decide),
              Or.inr (strContains_of_pref _ _)⟩

theorem process_costs_rows_shape (file : Option MarkupFile) (g : MarkupTable) (df : DF)
    (logs : List String) :
    (process_costs_and_prices file g df logs).df.rows = df.rows ∨
    ∃ table, (process_costs_and_prices file g df logs).df.rows =
      (df.rows.map ensureCPCols).map (fun r => (cpRow table r).1) := by
  unfold process_costs_and_prices
  split
  · exact Or.inl rfl
  · exact Or.inr ⟨(if g = [] then (load_markup_table file g).2 else g), by simp [cp_foldl_rows]⟩

theorem process_costs_rows_mem (file : Option MarkupFile) (g : MarkupTable) (df : DF)
    (logs : List String) (r : Row)
    (hr : r ∈ (process_costs_and_prices file g df logs).df.rows) :
    r ∈ df.rows ∨ ∃ table r2, r2 ∈ df.rows ∧ r = (cpRow table (ensureCPCols r2)).1 := by
  rcases process_costs_rows_shape file g df logs with h | ⟨table, h⟩
  · rw [h] at hr
    exact Or.inl hr
  · rw [h] at hr
    obtain ⟨r1, hr1, hre⟩ := List.mem_map.mp hr
    obtain ⟨r2, hr2, hre2⟩ := List.mem_map.mp hr1
    exact Or.inr ⟨table, r2, hr2, by rw [← hre, ← hre2]⟩

-- ==========================================
-- C2: kept rows log a QTY or COST delta
-- ==========================================

/-- C2: in every completed run of the full pipeline, every row kept in the
final filtered output carries a non-empty change-log string containing
`QTY` or `COST`; a row whose only delta is a price delta has its log reset
to the empty string and is dropped, so no kept row's log consists only of a
`PRICE` segment. -/
theorem kept_rows_have_qty_or_cost (shopify mcws bbr : DF)
    (mf dmf : Option MarkupFile) (g0 : MarkupTable) (dfo : DF)
    (hok : (process_inventory_v02 shopify mcws bbr mf dmf g0).map V02Result.output = .ok dfo) :
    ∀ r ∈ dfo.rows, ∃ s, Row.getC r COL_CHANGE_LOG = some (.vstr s) ∧ s ≠ "" ∧
      (strContains s "QTY" = true ∨ strContains s "COST" = true) := by
  cases hv : process_inventory_v02 shopify mcws bbr mf dmf g0 with
  | error e =>
    rw [hv] at hok
    simp [Except.map] at hok
  | ok res =>
    rw [hv] at hok
    simp only [Except.map, Except.ok.injEq] at hok
    subst hok
    unfold process_inventory_v02 at hv
    cases hdc : dupCheckStage mcws with
    | error e =>
      rw [hdc] at hv
      exact absurd hv (by simp)
    | ok vd =>
      rw [hdc] at hv
      dsimp only at hv
      by_cases hsku : COL_SHOPIFY_SKU ∉ shopify.cols
      · rw [if_pos hsku] at hv
        simp only [Except.ok.injEq] at hv
        subst hv
        intro r hr
        cases hr
      · rw [if_neg hsku] at hv
        set avl := buildAvailBbr bbr
          (buildAvailMcwsCol mcws COL_MCWS_CODE (decide (COL_MCWS_TRADEMARK ∈ mcws.cols))
            (buildAvailMcwsCol mcws COL_MCWS_OUR_CODE
              (decide (COL_MCWS_TRADEMARK ∈ mcws.cols)) [])) with havl
        by_cases hre : (reconcile avl shopify.rows).rowsOut = []
        · rw [if_pos hre] at hv
          simp only [show ((⟨[], []⟩ : DF).rows = []) = True from eq_true rfl, if_true] at hv
          simp only [Except.ok.injEq] at hv
          subst hv
          intro r hr
          cases hr
        · rw [if_neg hre] at hv
          rw [if_neg (show ¬((⟨shopify.cols,
              (reconcile avl shopify.rows).rowsOut⟩ : DF).rows = []) from by simpa using hre)]
            at hv
          split at hv
          · next hce =>
            simp only [Except.ok.injEq] at hv
            subst hv
            intro r hr
            dsimp only at hr
            rw [hce] at hr
            cases hr
          · split at hv
            · next e heq =>
              exact absurd hv (by simp)
            · next fin heq =>
              simp only [Except.ok.injEq] at hv
              subst hv
              intro r hr
              dsimp only at hr
              refine add_change_log_kept _ _ _ _ _ heq ?_ r hr
              intro r1 hr1
              rcases process_costs_rows_mem _ _ _ _ _ hr1 with hin | ⟨table, r2, hr2, hre2⟩
              · have hin2 : r1 ∈ (shopify.rows.foldl (recStep avl)
                    ⟨⟨0, 0, 0⟩, [], []⟩).rowsOut := hin
                rcases rec_rowsOut_from avl shopify.rows _ r1 hin2 with
                  h0 | ⟨row0, hrow0, hsk2, hske⟩
                · cases h0
                · have hks := originalBySku_hasKey shopify row0 hrow0 hske
                  rw [← hsk2] at hks
                  unfold skuOf at hks
                  rw [Option.isSome_iff_exists] at hks
                  exact hks
              · subst hre2
                have hr2b : r2 ∈ (shopify.rows.foldl (recStep avl)
                    ⟨⟨0, 0, 0⟩, [], []⟩).rowsOut := hr2
                rcases rec_rowsOut_from avl shopify.rows _ r2 hr2b with
                  h0 | ⟨row0, hrow0, hsk2, hske⟩
                · cases h0
                · have hks := originalBySku_hasKey shopify row0 hrow0 hske
                  have heqk : skuOf ((cpRow table (ensureCPCols r2)).1) = skuOf row0 := by
                    rw [skuOf_cpRowT, skuOf_ensureCPCols, hsk2]
                  rw [← heqk] at hks
                  unfold skuOf at hks
                  rw [Option.isSome_iff_exists] at hks
                  exact hks

/-- The single row the C2 witness run keeps in its final output. -/
def c2KeptRow : Row :=
  [(COL_SHOPIFY_SKU, some (.vstr "K-123")), (COL_SHOPIFY_QTY, some (.vint 1)),
   (COL_COSTO_BBR, none), (COL_NET_PRICE, none),
   (COL_CHANGE_LOG, some (.vstr "QTY: 0→1 (RIATTIVATO)"))]

/-- The full output table of the C2 witness run. -/
def c2DFO : DF :=
  ⟨[COL_SHOPIFY_SKU, COL_SHOPIFY_QTY, COL_COSTO_BBR, COL_NET_PRICE, COL_CHANGE_LOG],
   [c2KeptRow]⟩

/-- Witness for C2 at a concrete completed run: its kept row logs a QTY delta. -/
theorem kept_rows_have_qty_or_cost_witness :
    ∃ s, Row.getC c2KeptRow COL_CHANGE_LOG = some (.vstr s) ∧ s ≠ "" ∧
      (strContains s "QTY" = true ∨ strContains s "COST" = true) :=
  kept_rows_have_qty_or_cost shopC8 mcwsC8 ⟨[], []⟩ none none [] c2DFO
    (by decide) c2KeptRow (by decide)

-- ==========================================
-- C7: duplicate report characterization
-- ==========================================

/-- The 0-based positions of the rows whose cleaned `codeCol` value is `c`. -/
def codePositions (rows : List Row) (codeCol : String) (c : String) : List ℕ :=
  (rows.enum.filter (fun p => decide (clean_code (Row.getC p.2 codeCol) = c))).map Prod.fst

/-- The index list a code is grouped under (empty when the code is absent). -/
def lookupG (gs : List (String × List ℕ)) (c : String) : List ℕ :=
  (List.lookup c gs).getD []

theorem lookupG_insertGroup_self (gs : List (String × List ℕ)) (c : String) (i : ℕ) :
    lookupG (insertGroup gs c i) c = lookupG gs c ++ [i] := by
  induction gs with
  | nil => simp [insertGroup, lookupG, List.lookup]
  | cons g rest ih =>
    obtain ⟨k, is⟩ := g
    by_cases hk : k = c
    · subst hk
      rw [insertGroup, if_pos rfl]
      simp [lookupG, List.lookup]
    · rw [insertGroup, if_neg hk]
      unfold lookupG at ih ⊢
      have hb : (c == k) = false := beq_eq_false_iff_ne.mpr (Ne.symm hk)
      simp only [List.lookup, hb]
      exact ih

theorem lookupG_insertGroup_ne (gs : List (String × List ℕ)) (c d : String) (i : ℕ)
    (hcd : c ≠ d) : lookupG (insertGroup gs c i) d = lookupG gs d := by
  induction gs with
  | nil =>
    have hb : (d == c) = false := beq_eq_false_iff_ne.mpr (Ne.symm hcd)
    simp [insertGroup, lookupG, List.lookup, hb]
  | cons g rest ih =>
    obtain ⟨k, is⟩ := g
    by_cases hk : k = c
    · subst hk
      rw [insertGroup, if_pos rfl]
      have hb : (d == k) = false := beq_eq_false_iff_ne.mpr (fun he => hcd (he.symm))
      simp [lookupG, List.lookup, hb]
    · rw [insertGroup, if_neg hk]
      unfold lookupG at ih ⊢
      simp only [List.lookup]
      cases hdk : (d == k) with
      | true => rfl
      | false => exact ih

theorem groups_fold_lookup (codeCol : String) (ps : List (ℕ × Row))
    (gs : List (String × List ℕ)) (c : String) (hc : c ≠ "") :
    lookupG (ps.foldl (fun gs p =>
      let cd := clean_code (Row.getC p.2 codeCol)
      if cd = "" then gs else insertGroup gs cd p.1) gs) c =
    lookupG gs c ++
      (ps.filter (fun p => decide (clean_code (Row.getC p.2 codeCol) = c))).map Prod.fst := by
  induction ps generalizing gs with
  | nil => simp
  | cons p t ih =>
    rw [List.foldl_cons]
    dsimp only
    rw [List.filter_cons]
    by_cases hcd : clean_code (Row.getC p.2 codeCol) = ""
    · rw [if_pos hcd]
      have hdec : decide (clean_code (Row.getC p.2 codeCol) = c) = false := by
        rw [hcd]; exact decide_eq_false fun he => hc he.symm
      rw [hdec]
      simp only [Bool.false_eq_true, if_false]
      exact ih gs
    · rw [if_neg hcd]
      by_cases hpc : clean_code (Row.getC p.2 codeCol) = c
      · have hdec : decide (clean_code (Row.getC p.2 codeCol) = c) = true := decide_eq_true hpc
        rw [hdec, if_pos rfl, ih, hpc, lookupG_insertGroup_self]
        simp
      · have hdec : decide (clean_code (Row.getC p.2 codeCol) = c) = false :=
          decide_eq_false hpc
        rw [hdec]
        simp only [Bool.false_eq_true, if_false]
        rw [ih, lookupG_insertGroup_ne _ _ _ _ hpc]

theorem codeGroups_lookupG (rows : List Row) (codeCol c : String) (hc : c ≠ "") :
    lookupG (codeGroups rows codeCol) c = codePositions rows codeCol c := by
  unfold codeGroups codePositions
  rw [groups_fold_lookup codeCol rows.enum [] c hc]
  simp [lookupG]

theorem map_fst_insertGroup (gs : List (String × List ℕ)) (c : String) (i : ℕ) :
    (insertGroup gs c i).map Prod.fst =
      if c ∈ gs.map Prod.fst then gs.map Prod.fst else gs.map Prod.fst ++ [c] := by
  induction gs with
  | nil => simp [insertGroup]
  | cons g rest ih =>
    obtain ⟨k, is⟩ := g
    by_cases hk : k = c
    · subst hk
      rw [insertGroup, if_pos rfl]
      simp
    · rw [insertGroup, if_neg hk]
      simp only [List.map_cons, ih]
      by_cases hmem : c ∈ rest.map Prod.fst
      · rw [if_pos hmem, if_pos (by simp [hmem])]
      · rw [if_neg hmem, if_neg (by simp [hmem, Ne.symm hk]), List.cons_append]

theorem mem_insertGroup (gs : List (String × List ℕ)) (c : String) (i : ℕ)
    (g : String × List ℕ) (hg : g ∈ insertGroup gs c i) :
    g ∈ gs ∨ (g.1 = c ∧ g.2 ≠ []) := by
  induction gs with
  | nil =>
    rw [insertGroup] at hg
    rcases List.mem_singleton.mp hg with rfl
    exact Or.inr ⟨rfl, by simp⟩
  | cons p rest ih =>
    obtain ⟨k, is⟩ := p
    by_cases hk : k = c
    · subst hk
      rw [insertGroup, if_pos rfl] at hg
      rcases List.mem_cons.mp hg with rfl | h
      · exact Or.inr ⟨rfl, by simp⟩
      · exact Or.inl (List.mem_cons_of_mem _ h)
    · rw [insertGroup, if_neg hk] at hg
      rcases List.mem_cons.mp hg with rfl | h
      · exact Or.inl (List.mem_cons_self _ _)
      · rcases ih h with h1 | h2
        · exact Or.inl (List.mem_cons_of_mem _ h1)
        · exact Or.inr h2

theorem groups_fold_wf (codeCol : String) (ps : List (ℕ × Row))
    (gs : List (String × List ℕ))
    (h1 : (gs.map Prod.fst).Nodup) (h2 : ∀ g ∈ gs, g.1 ≠ "" ∧ g.2 ≠ []) :
    ((ps.foldl (fun gs p =>
        let cd := clean_code (Row.getC p.2 codeCol)
        if cd = "" then gs else insertGroup gs cd p.1) gs).map Prod.fst).Nodup ∧
      ∀ g ∈ ps.foldl (fun gs p =>
        let cd := clean_code (Row.getC p.2 codeCol)
        if cd = "" then gs else insertGroup gs cd p.1) gs, g.1 ≠ "" ∧ g.2 ≠ [] := by
  induction ps generalizing gs with
  | nil => exact ⟨h1, h2⟩
  | cons p t ih =>
    rw [List.foldl_cons]
    dsimp only
    by_cases hcd : clean_code (Row.getC p.2 codeCol) = ""
    · rw [if_pos hcd]
      exact ih gs h1 h2
    · rw [if_neg hcd]
      refine ih _ ?_ ?_
      · rw [map_fst_insertGroup]
        split
        · exact h1
        · next hmem => simp [List.nodup_append, h1, hmem]
      · intro g hg
        rcases mem_insertGroup _ _ _ _ hg with h | ⟨hgc, hgn⟩
        · exact h2 g h
        · exact ⟨hgc ▸ hcd, hgn⟩

theorem codeGroups_wf (rows : List Row) (codeCol : String) :
    ((codeGroups rows codeCol).map Prod.fst).Nodup ∧
      ∀ g ∈ codeGroups rows codeCol, g.1 ≠ "" ∧ g.2 ≠ [] := by
  unfold codeGroups
  exact groups_fold_wf codeCol rows.enum [] (by simp) (by simp)

theorem lookup_eq_of_mem_keys (gs : List (String × List ℕ))
    (hnd : (gs.map Prod.fst).Nodup) (g : String × List ℕ) (hg : g ∈ gs) :
    List.lookup g.1 gs = some g.2 := by
  induction gs with
  | nil => cases hg
  | cons p rest ih =>
    obtain ⟨k, v⟩ := p
    rw [List.map_cons, List.nodup_cons] at hnd
    rcases List.mem_cons.mp hg with rfl | h
    · simp [List.lookup]
    · have hk : (g.1 == k) = false := by
        rw [beq_eq_false_iff_ne]
        intro he
        exact hnd.1 (he ▸ List.mem_map.mpr ⟨g, h, rfl⟩)
      simp only [List.lookup, hk]
      exact ih hnd.2 h

theorem mem_of_lookup_eq_some (gs : List (String × List ℕ)) (a : String) (b : List ℕ)
    (h : List.lookup a gs = some b) : (a, b) ∈ gs := by
  induction gs with
  | nil => simp [List.lookup] at h
  | cons p rest ih =>
    obtain ⟨k, v⟩ := p
    cases hk : (a == k) with
    | true =>
      simp only [List.lookup, hk] at h
      rcases beq_iff_eq.mp hk with rfl
      rcases Option.some.injEq _ _ ▸ h with rfl
      exact List.mem_cons_self _ _
    | false =>
      simp only [List.lookup, hk] at h
      exact List.mem_cons_of_mem _ (ih h)

theorem mem_codePositions (rows : List Row) (codeCol c : String) (i : ℕ) :
    i ∈ codePositions rows codeCol c ↔
      i < rows.length ∧ clean_code (Row.getC (rows.getD i []) codeCol) = c := by
  unfold codePositions
  rw [List.mem_map]
  constructor
  · rintro ⟨p, hp, rfl⟩
    rw [List.mem_filter] at hp
    obtain ⟨hpe, hpc⟩ := hp
    rw [List.mem_enum_iff_getElem?] at hpe
    obtain ⟨hlt, hget⟩ := List.getElem?_eq_some.mp hpe
    have hgd : rows.getD p.1 [] = p.2 := by
      have h0 : rows.getD p.1 [] = (rows.get? p.1).getD [] := rfl
      rw [List.get?_eq_getElem?] at h0
      rw [h0, hpe]
      rfl
    exact ⟨hlt, by rw [hgd]; exact of_decide_eq_true hpc⟩
  · rintro ⟨hlt, hcode⟩
    refine ⟨(i, rows.getD i []), ?_, rfl⟩
    rw [List.mem_filter]
    refine ⟨?_, decide_eq_true hcode⟩
    rw [List.mem_enum_iff_getElem?]
    have h0 : rows.getD i [] = (rows.get? i).getD [] := rfl
    rw [List.get?_eq_getElem?] at h0
    rw [List.getElem?_eq_getElem hlt] at h0 ⊢
    rw [h0]
    rfl

theorem codePositions_nodup (rows : List Row) (codeCol c : String) :
    (codePositions rows codeCol c).Nodup := by
  unfold codePositions
  have hsub := (List.filter_sublist (l := rows.enum)
    (p := fun p => decide (clean_code (Row.getC p.2 codeCol) = c))).map Prod.fst
  rw [List.enum_map_fst] at hsub
  exact (List.nodup_range _).sublist hsub

theorem dup_inner_snd (rows : List Row) (tmCol c : String) (is : List ℕ)
    (acc : List ℕ × List DupEntry) :
    (is.foldl (fun acc2 i =>
      let e := dupEntryOf rows tmCol c i
      (if e.isValidTrademark then acc2.1 ++ [i] else acc2.1, acc2.2 ++ [e])) acc).2 =
    acc.2 ++ is.map (dupEntryOf rows tmCol c) := by
  induction is generalizing acc with
  | nil => simp
  | cons i t ih =>
    rw [List.foldl_cons, ih]
    simp

theorem dup_outer_snd (rows : List Row) (tmCol : String)
    (dups : List (String × List ℕ)) (acc : List ℕ × List DupEntry) :
    (dups.foldl (fun acc g =>
      g.2.foldl (fun acc2 i =>
        let e := dupEntryOf rows tmCol g.1 i
        (if e.isValidTrademark then acc2.1 ++ [i] else acc2.1, acc2.2 ++ [e])) acc) acc).2 =
    acc.2 ++ dups.flatMap (fun g => g.2.map (dupEntryOf rows tmCol g.1)) := by
  induction dups generalizing acc with
  | nil => simp
  | cons g t ih =>
    rw [List.foldl_cons, ih, dup_inner_snd]
    simp

theorem report_of_ok (df : DF) (codeCol tmCol : String) (valid : List ℕ)
    (report : List DupEntry)
    (h : find_duplicate_codes_with_trademark_check df codeCol tmCol = .ok (valid, report)) :
    report = ((codeGroups df.rows codeCol).filter (fun g => 1 < g.2.length)).flatMap
      (fun g => g.2.map (dupEntryOf df.rows tmCol g.1)) := by
  unfold find_duplicate_codes_with_trademark_check at h
  split at h
  · exact absurd h (by simp)
  · dsimp only at h
    simp only [Except.ok.injEq] at h
    have h2 := congrArg Prod.snd h
    rw [dup_outer_snd] at h2
    simpa using h2.symm

theorem mem_insertNew_iff (l : List String) (x c : String) :
    c ∈ insertNew l x ↔ c ∈ l ∨ c = x := by
  unfold insertNew
  by_cases h : x ∈ l
  · rw [if_pos h]
    constructor
    · exact Or.inl
    · rintro (hc | rfl)
      · exact hc
      · exact h
  · rw [if_neg h]
    simp

theorem mem_mcws_fold (col : String) (hasTm : Bool) (rows : List Row)
    (acc : List String) (c : String) :
    c ∈ rows.foldl (fun s row =>
        let cc := clean_code (Row.getC row col)
        if cc = "" then s
        else if hasTm ∧ clean_trademark (Row.getC row COL_MCWS_TRADEMARK) ∉ VALID_TRADEMARKS
          then s
        else insertNew s cc) acc ↔
      c ∈ acc ∨ ∃ row ∈ rows, clean_code (Row.getC row col) = c ∧ c ≠ "" ∧
        (hasTm = true → clean_trademark (Row.getC row COL_MCWS_TRADEMARK) ∈ VALID_TRADEMARKS) := by
  induction rows generalizing acc with
  | nil => simp
  | cons row t ih =>
    rw [List.foldl_cons]
    dsimp only
    by_cases h1 : clean_code (Row.getC row col) = ""
    · rw [if_pos h1, ih]
      constructor
      · rintro (h | ⟨r, hr, hp⟩)
        · exact Or.inl h
        · exact Or.inr ⟨r, List.mem_cons_of_mem _ hr, hp⟩
      · rintro (h | ⟨r, hr, hcode, hcne, htm⟩)
        · exact Or.inl h
        · rcases List.mem_cons.mp hr with rfl | hr2
          · exact absurd (h1 ▸ hcode) (Ne.symm hcne)
          · exact Or.inr ⟨r, hr2, hcode, hcne, htm⟩
    · rw [if_neg h1]
      by_cases h2 : hasTm ∧ clean_trademark (Row.getC row COL_MCWS_TRADEMARK) ∉ VALID_TRADEMARKS
      · rw [if_pos h2, ih]
        constructor
        · rintro (h | ⟨r, hr, hp⟩)
          · exact Or.inl h
          · exact Or.inr ⟨r, List.mem_cons_of_mem _ hr, hp⟩
        · rintro (h | ⟨r, hr, hcode, hcne, htm⟩)
          · exact Or.inl h
          · rcases List.mem_cons.mp hr with rfl | hr2
            · exact absurd (htm h2.1) h2.2
            · exact Or.inr ⟨r, hr2, hcode, hcne, htm⟩
      · rw [if_neg h2, ih]
        push_neg at h2
        constructor
        · rintro (h | ⟨r, hr, hp⟩)
          · rcases (mem_insertNew_iff _ _ _).mp h with h3 | rfl
            · exact Or.inl h3
            · exact Or.inr ⟨row, List.mem_cons_self _ _, rfl, h1, h2⟩
          · exact Or.inr ⟨r, List.mem_cons_of_mem _ hr, hp⟩
        · rintro (h | ⟨r, hr, hcode, hcne, htm⟩)
          · exact Or.inl ((mem_insertNew_iff _ _ _).mpr (Or.inl h))
          · rcases List.mem_cons.mp hr with rfl | hr2
            · exact Or.inl ((mem_insertNew_iff _ _ _).mpr (Or.inr hcode.symm))
            · exact Or.inr ⟨r, hr2, hcode, hcne, htm⟩

theorem mem_buildAvailMcwsCol (mcws : DF) (col : String) (hasTm : Bool)
    (acc : List String) (c : String) :
    c ∈ buildAvailMcwsCol mcws col hasTm acc ↔
      c ∈ acc ∨ (col ∈ mcws.cols ∧ ∃ row ∈ mcws.rows,
        clean_code (Row.getC row col) = c ∧ c ≠ "" ∧
        (hasTm = true →
          clean_trademark (Row.getC row COL_MCWS_TRADEMARK) ∈ VALID_TRADEMARKS)) := by
  unfold buildAvailMcwsCol
  by_cases hcol : col ∈ mcws.cols
  · rw [if_pos hcol, mem_mcws_fold]
    simp [hcol]
  · rw [if_neg hcol]
    simp [hcol]

/-- The per-row quantity gate of the BBR loop, as a predicate on the row
alone: when the quantity column exists and the plain comma-to-dot parse
succeeds, the parsed value must not be ≤ 0. -/
def bbrAdmits (hasQty : Bool) (row : Row) : Prop :=
  hasQty = true →
    ∀ q, pyFloatOfString (replaceChar (pyStrOfCell (Row.getC row COL_BBR_QTY)) ',' '.') = some q →
      PyFloat.leB q (.fin Frac.zero) = false

theorem mem_bbrStep (hasQty : Bool) (s : List String) (row : Row) (c : String) :
    c ∈ bbrStep hasQty s row ↔
      c ∈ s ∨ (bbrAdmits hasQty row ∧ clean_code (Row.getC row COL_BBR_SKU) = c ∧ c ≠ "") := by
  unfold bbrStep bbrAdmits
  cases hasQty with
  | false =>
    simp only [Bool.false_eq_true, if_false, if_true, false_implies, true_and]
    by_cases hcode : clean_code (Row.getC row COL_BBR_SKU) = ""
    · rw [if_neg (by simpa using hcode)]
      constructor
      · exact Or.inl
      · rintro (h | ⟨hc, hcne⟩)
        · exact h
        · exact absurd (hcode ▸ hc) (Ne.symm hcne)
    · rw [if_pos hcode]
      rw [mem_insertNew_iff]
      constructor
      · rintro (h | rfl)
        · exact Or.inl h
        · exact Or.inr ⟨rfl, hcode⟩
      · rintro (h | ⟨rfl, hcne⟩)
        · exact Or.inl h
        · exact Or.inr rfl
  | true =>
    simp only [if_true, true_implies]
    cases hp : pyFloatOfString (replaceChar (pyStrOfCell (Row.getC row COL_BBR_QTY)) ',' '.') with
    | none =>
      simp only [hp]
      have hadm : (∀ q, (none : Option PyFloat) = some q →
          PyFloat.leB q (.fin Frac.zero) = false) := fun q h => by cases h
      by_cases hcode : clean_code (Row.getC row COL_BBR_SKU) = ""
      · rw [if_pos trivial, if_neg (by simpa using hcode)]
        constructor
        · exact Or.inl
        · rintro (h | ⟨_, hc, hcne⟩)
          · exact h
          · exact absurd (hcode ▸ hc) (Ne.symm hcne)
      · rw [if_pos trivial, if_pos hcode, mem_insertNew_iff]
        constructor
        · rintro (h | rfl)
          · exact Or.inl h
          · exact Or.inr ⟨hadm, rfl, hcode⟩
        · rintro (h | ⟨_, rfl, _⟩)
          · exact Or.inl h
          · exact Or.inr rfl
    | some q =>
      simp only [hp]
      rcases Bool.eq_false_or_eq_true (PyFloat.leB q (.fin Frac.zero)) with hq | hq
      · simp only [hq, Bool.not_true]
        rw [if_neg (by simp)]
        constructor
        · exact Or.inl
        · rintro (h | ⟨hadm, _, _⟩)
          · exact h
          · have := hadm q rfl
            rw [hq] at this
            cases this
      · simp only [hq, Bool.not_false]
        rw [if_pos trivial]
        have hadm : ∀ q2, (some q : Option PyFloat) = some q2 →
            PyFloat.leB q2 (.fin Frac.zero) = false := by
          rintro q2 h2
          rcases Option.some.inj h2 with rfl
          exact hq
        by_cases hcode : clean_code (Row.getC row COL_BBR_SKU) = ""
        · rw [if_neg (by simpa using hcode)]
          constructor
          · exact Or.inl
          · rintro (h | ⟨_, hc, hcne⟩)
            · exact h
            · exact absurd (hcode ▸ hc) (Ne.symm hcne)
        · rw [if_pos hcode, mem_insertNew_iff]
          constructor
          · rintro (h | rfl)
            · exact Or.inl h
            · exact Or.inr ⟨hadm, rfl, hcode⟩
          · rintro (h | ⟨_, rfl, _⟩)
            · exact Or.inl h
            · exact Or.inr rfl

theorem mem_bbr_fold (hasQty : Bool) (rows : List Row) (acc : List String) (c : String) :
    c ∈ rows.foldl (bbrStep hasQty) acc ↔
      c ∈ acc ∨ ∃ row ∈ rows, bbrAdmits hasQty row ∧
        clean_code (Row.getC row COL_BBR_SKU) = c ∧ c ≠ "" := by
  induction rows generalizing acc with
  | nil => simp
  | cons row t ih =>
    rw [List.foldl_cons, ih]
    constructor
    · rintro (h | ⟨r, hr, hp⟩)
      · rcases (mem_bbrStep _ _ _ _).mp h with h2 | h2
        · exact Or.inl h2
        · exact Or.inr ⟨row, List.mem_cons_self _ _, h2⟩
      · exact Or.inr ⟨r, List.mem_cons_of_mem _ hr, hp⟩
    · rintro (h | ⟨r, hr, hp⟩)
      · exact Or.inl ((mem_bbrStep _ _ _ _).mpr (Or.inl h))
      · rcases List.mem_cons.mp hr with rfl | hr2
        · exact Or.inl ((mem_bbrStep _ _ _ _).mpr (Or.inr hp))
        · exact Or.inr ⟨r, hr2, hp⟩

theorem mem_buildAvailBbr_iff (bbr : DF) (acc : List String) (c : String) :
    c ∈ buildAvailBbr bbr acc ↔
      c ∈ acc ∨ (COL_BBR_SKU ∈ bbr.cols ∧ ∃ row ∈ bbr.rows,
        bbrAdmits (decide (COL_BBR_QTY ∈ bbr.cols)) row ∧
        clean_code (Row.getC row COL_BBR_SKU) = c ∧ c ≠ "") := by
  unfold buildAvailBbr
  by_cases hcol : COL_BBR_SKU ∈ bbr.cols
  · rw [if_pos hcol, mem_bbr_fold]
    simp [hcol]
  · rw [if_neg hcol]
    simp [hcol]

/-- C7: the duplicate report contains exactly one entry per occurrence of a
duplicated cleaned code — with the 1-based row index, the cleaned trademark
and a validity flag equal to membership in the valid-trademark list — codes
whose cleaned form is empty or occurs only once never appear, and the
availability set built later in the run is characterized row by row with no
reference to the report or the valid-index list. -/
theorem duplicate_report_spec (mcws bbr : DF) (codeCol tmCol : String)
    (valid : List ℕ) (report : List DupEntry)
    (h : find_duplicate_codes_with_trademark_check mcws codeCol tmCol = .ok (valid, report)) :
    (∀ e ∈ report, ∃ i, i < mcws.rows.length ∧ e.rowIndex = i + 1 ∧
       clean_code (Row.getC (mcws.rows.getD i []) codeCol) = e.code ∧
       e.trademark = clean_trademark (Row.getC (mcws.rows.getD i []) tmCol) ∧
       e.isValidTrademark = decide (e.trademark ∈ VALID_TRADEMARKS) ∧
       e.code ≠ "" ∧ 1 < (codePositions mcws.rows codeCol e.code).length) ∧
    (∀ i, i < mcws.rows.length →
       clean_code (Row.getC (mcws.rows.getD i []) codeCol) ≠ "" →
       1 < (codePositions mcws.rows codeCol
             (clean_code (Row.getC (mcws.rows.getD i []) codeCol))).length →
       ∃ e ∈ report, e.code = clean_code (Row.getC (mcws.rows.getD i []) codeCol) ∧
         e.rowIndex = i + 1) ∧
    (report.map (fun e => (e.code, e.rowIndex))).Nodup ∧
    (∀ c, c ∈ buildAvailBbr bbr (buildAvailMcwsCol mcws COL_MCWS_CODE
          (decide (COL_MCWS_TRADEMARK ∈ mcws.cols))
          (buildAvailMcwsCol mcws COL_MCWS_OUR_CODE
            (decide (COL_MCWS_TRADEMARK ∈ mcws.cols)) [])) ↔
       ((COL_MCWS_OUR_CODE ∈ mcws.cols ∧ ∃ row ∈ mcws.rows,
           clean_code (Row.getC row COL_MCWS_OUR_CODE) = c ∧ c ≠ "" ∧
           (COL_MCWS_TRADEMARK ∈ mcws.cols →
             clean_trademark (Row.getC row COL_MCWS_TRADEMARK) ∈ VALID_TRADEMARKS)) ∨
        (COL_MCWS_CODE ∈ mcws.cols ∧ ∃ row ∈ mcws.rows,
           clean_code (Row.getC row COL_MCWS_CODE) = c ∧ c ≠ "" ∧
           (COL_MCWS_TRADEMARK ∈ mcws.cols →
             clean_trademark (Row.getC row COL_MCWS_TRADEMARK) ∈ VALID_TRADEMARKS)) ∨
        (COL_BBR_SKU ∈ bbr.cols ∧ ∃ row ∈ bbr.rows,
           bbrAdmits (decide (COL_BBR_QTY ∈ bbr.cols)) row ∧
           clean_code (Row.getC row COL_BBR_SKU) = c ∧ c ≠ ""))) := by
  have hrep := report_of_ok mcws codeCol tmCol valid report h
  have hwf := codeGroups_wf mcws.rows codeCol
  have hgrp : ∀ g ∈ (codeGroups mcws.rows codeCol).filter (fun g => 1 < g.2.length),
      g.1 ≠ "" ∧ g.2 = codePositions mcws.rows codeCol g.1 ∧ 1 < g.2.length := by
    intro g hg
    rw [List.mem_filter] at hg
    obtain ⟨hgm, hglen⟩ := hg
    have hwf2 := hwf.2 g hgm
    have hlk := lookup_eq_of_mem_keys _ hwf.1 g hgm
    have hlg : lookupG (codeGroups mcws.rows codeCol) g.1 = g.2 := by
      unfold lookupG
      rw [hlk]
      rfl
    rw [codeGroups_lookupG _ _ _ hwf2.1] at hlg
    exact ⟨hwf2.1, hlg.symm, of_decide_eq_true hglen⟩
  refine ⟨?_, ?_, ?_, ?_⟩
  · intro e he
    rw [hrep, List.mem_flatMap] at he
    obtain ⟨g, hg, hge⟩ := he
    obtain ⟨hg1, hg2, hglen⟩ := hgrp g hg
    rw [List.mem_map] at hge
    obtain ⟨i, hi, rfl⟩ := hge
    rw [hg2, mem_codePositions] at hi
    obtain ⟨hlt, hcode⟩ := hi
    refine ⟨i, hlt, rfl, hcode, rfl, rfl, hg1, ?_⟩
    show 1 < (codePositions mcws.rows codeCol g.1).length
    rw [← hg2]
    exact hglen
  · intro i hlt hcne hdup
    have hipos : i ∈ codePositions mcws.rows codeCol
        (clean_code (Row.getC (mcws.rows.getD i []) codeCol)) :=
      (mem_codePositions _ _ _ _).mpr ⟨hlt, rfl⟩
    have hlg := codeGroups_lookupG mcws.rows codeCol
      (clean_code (Row.getC (mcws.rows.getD i []) codeCol)) hcne
    obtain ⟨is, hlk⟩ : ∃ is, List.lookup
        (clean_code (Row.getC (mcws.rows.getD i []) codeCol))
        (codeGroups mcws.rows codeCol) = some is := by
      cases hl : List.lookup (clean_code (Row.getC (mcws.rows.getD i []) codeCol))
          (codeGroups mcws.rows codeCol) with
      | none =>
        unfold lookupG at hlg
        rw [hl] at hlg
        rw [← hlg] at hipos
        cases hipos
      | some is => exact ⟨is, rfl⟩
    have hism := mem_of_lookup_eq_some _ _ _ hlk
    have his : is = codePositions mcws.rows codeCol
        (clean_code (Row.getC (mcws.rows.getD i []) codeCol)) := by
      unfold lookupG at hlg
      rw [hlk] at hlg
      exact hlg
    refine ⟨dupEntryOf mcws.rows tmCol
      (clean_code (Row.getC (mcws.rows.getD i []) codeCol)) i, ?_, rfl, rfl⟩
    rw [hrep, List.mem_flatMap]
    refine ⟨(clean_code (Row.getC (mcws.rows.getD i []) codeCol), is), ?_, ?_⟩
    · rw [List.mem_filter]
      refine ⟨hism, decide_eq_true ?_⟩
      show 1 < is.length
      rw [his]
      exact hdup
    · exact List.mem_map.mpr ⟨i, by rw [his]; exact hipos, rfl⟩
  · rw [hrep]
    have hform : (((codeGroups mcws.rows codeCol).filter (fun g => 1 < g.2.length)).flatMap
        (fun g => g.2.map (dupEntryOf mcws.rows tmCol g.1))).map
          (fun e => (e.code, e.rowIndex)) =
      ((codeGroups mcws.rows codeCol).filter (fun g => 1 < g.2.length)).flatMap
        (fun g => g.2.map (fun i => (g.1, i + 1))) := by
      rw [List.map_flatMap]
      congr 1
      funext g
      rw [List.map_map]
      rfl
    rw [hform, List.nodup_flatMap]
    constructor
    · intro g hg
      obtain ⟨hg1, hg2, hglen⟩ := hgrp g hg
      rw [hg2]
      refine List.Nodup.map ?_ (codePositions_nodup _ _ _)
      intro a b hab
      have := (Prod.mk.injEq _ _ _ _).mp hab
      omega
    · have hknd : (((codeGroups mcws.rows codeCol).filter
          (fun g => 1 < g.2.length)).map Prod.fst).Nodup := by
        have hsub := (List.filter_sublist (l := codeGroups mcws.rows codeCol)
          (p := fun g => decide (1 < g.2.length))).map Prod.fst
        exact hwf.1.sublist hsub
      have hpw := List.pairwise_map.mp hknd
      refine hpw.imp ?_
      intro a b hab
      unfold Function.onFun
      intro x hxa hxb
      rw [List.mem_map] at hxa hxb
      obtain ⟨i, _, rfl⟩ := hxa
      obtain ⟨j, _, hj⟩ := hxb
      exact hab ((Prod.mk.injEq _ _ _ _).mp hj.symm).1
  · intro c
    rw [mem_buildAvailBbr_iff, mem_buildAvailMcwsCol, mem_buildAvailMcwsCol]
    simp only [List.not_mem_nil, false_or, decide_eq_true_eq]
    rw [or_assoc]

/-- A supplier table whose two rows share the cleaned code `A1` under two
different trademarks, one valid and one not. -/
def mcwsC7 : DF := ⟨[COL_MCWS_OUR_CODE, COL_MCWS_TRADEMARK],
  [[(COL_MCWS_OUR_CODE, some (.vstr "A1")), (COL_MCWS_TRADEMARK, some (.vstr "kyosho"))],
   [(COL_MCWS_OUR_CODE, some (.vstr "a-1")), (COL_MCWS_TRADEMARK, some (.vstr "FOO"))]]⟩

def bbrC7 : DF := ⟨[COL_BBR_SKU], [[(COL_BBR_SKU, some (.vstr "B2"))]]⟩

/-- The duplicate report the witness run produces: both occurrences of `A1`. -/
def reportC7 : List DupEntry :=
  [⟨"A1", 1, "KYOSHO", true⟩, ⟨"A1", 2, "FOO", false⟩]

/-- Witness for C7 at a concrete duplicated table: the report pairs
(code, 1-based row) are distinct. -/
theorem duplicate_report_spec_witness :
    (reportC7.map (fun e => (e.code, e.rowIndex))).Nodup :=
  (duplicate_report_spec mcwsC7 bbrC7 COL_MCWS_OUR_CODE COL_MCWS_TRADEMARK
    [0] reportC7 (by decide)).2.2.1
